import Mathlib

/-!
# The examples backend of Rell (package `examples`)

A shallow embedding of `examples/examples.go` and a verification of its
specification.

* Go strings and byte slices are sequences of bytes; a byte is a `Nat`.
* The process-wide variables `old`, `mu` and the remote store form an explicit
  `State` that every operation receives and returns.
* The file system and the two directory flags form a read-only `Env`.
* A run-time panic and `log.Fatal` end the process; they are the `Crash`
  outcomes of an operation.
-/

namespace Examples

/-! ## Strings and bytes -/

/-- A Go `string`: an immutable sequence of bytes. -/
abbrev GoString := List Nat

/-- A Go `[]byte`. -/
abbrev Bytes := List Nat

/-- The UTF-8 encoding of one character of a source-code literal. -/
def utf8 (c : Char) : List Nat :=
  let n := c.toNat
  if n < 0x80 then [n]
  else if n < 0x800 then [0xC0 + n / 64, 0x80 + n % 64]
  else if n < 0x10000 then [0xE0 + n / 4096, 0x80 + n / 64 % 64, 0x80 + n % 64]
  else [0xF0 + n / 262144, 0x80 + n / 4096 % 64, 0x80 + n / 64 % 64, 0x80 + n % 64]

/-- The bytes of a Go string literal (Go source text is UTF-8). -/
def str (s : String) : GoString :=
  s.toList.flatMap utf8

/-- The byte `'/'`. -/
def slash : Nat := 47

/-- The pieces of `s` between the occurrences of the one-byte separator `sep`:
`strings.Split(s, sep)` for a separator of length one.  The result is never
empty: a string without the separator is its own single piece. -/
def Split (s : GoString) (sep : Nat) : List GoString :=
  match s with
  | [] => [[]]
  | c :: cs =>
    if c = sep then [] :: Split cs sep
    else
      match Split cs sep with
      | [] => [[c]]
      | p :: ps => (c :: p) :: ps

/-- The elements joined with `sep` between them: `strings.Join`. -/
def joinWith (sep : GoString) : List GoString → GoString
  | [] => []
  | [e] => e
  | e :: es => e ++ sep ++ joinWith sep es

/-- The slice expression `s[:hi]` for a signed bound: `none` is the run-time
panic "slice bounds out of range". -/
def sliceTo (s : GoString) (hi : Int) : Option GoString :=
  if 0 ≤ hi ∧ hi ≤ (s.length : Int) then some (s.take hi.toNat) else none

/-! ## `path.Clean` and `path.Join` -/

/-- One step of `path.Clean` over the elements kept so far (last one first):
`.` is dropped, `..` removes the element before it, is dropped at the root and
is kept at the start of a relative path. -/
def cleanStep (rooted : Bool) (kept : List GoString) (elem : GoString) : List GoString :=
  if elem = str "." then kept
  else if elem = str ".." then
    match kept with
    | [] => if rooted then [] else [elem]
    | top :: below => if top = str ".." then elem :: kept else below
  else elem :: kept

/-- The shortest path equivalent to `path` by lexical processing: `path.Clean`
(and `filepath.Clean` where the separator is `/`). -/
def Clean (path : GoString) : GoString :=
  let rooted : Bool := path.head? = some slash
  let elems := (Split path slash).filter (fun e => e ≠ [])
  let kept := (elems.foldl (cleanStep rooted) []).reverse
  let out := (if rooted then [slash] else []) ++ joinWith [slash] kept
  if out = [] then str "." else out

/-- The elements from the first non-empty one on, joined with `/` and cleaned:
`path.Join` (and `filepath.Join` where the separator is `/`). -/
def Join : List GoString → GoString
  | [] => []
  | e :: es => if e = [] then Join es else Clean (joinWith [slash] (e :: es))

/-! ## `bytes.TrimSpace` -/

/-- The width in bytes of the white-space rune that `s` starts with, `0` when
`s` does not start with the UTF-8 encoding of a rune for which
`unicode.IsSpace` holds. -/
def spaceWidth (s : Bytes) : Nat :=
  match s with
  | [] => 0
  | b0 :: r0 =>
    if b0 = 9 ∨ b0 = 10 ∨ b0 = 11 ∨ b0 = 12 ∨ b0 = 13 ∨ b0 = 32 then 1
    else
      match r0 with
      | [] => 0
      | b1 :: r1 =>
        if b0 = 0xC2 ∧ (b1 = 0x85 ∨ b1 = 0xA0) then 2
        else
          match r1 with
          | [] => 0
          | b2 :: _ =>
            if b0 = 0xE1 ∧ b1 = 0x9A ∧ b2 = 0x80 then 3
            else if b0 = 0xE2 ∧ b1 = 0x80 ∧
                ((0x80 ≤ b2 ∧ b2 ≤ 0x8A) ∨ b2 = 0xA8 ∨ b2 = 0xA9 ∨ b2 = 0xAF) then 3
            else if b0 = 0xE2 ∧ b1 = 0x81 ∧ b2 = 0x9F then 3
            else if b0 = 0xE3 ∧ b1 = 0x80 ∧ b2 = 0x80 then 3
            else 0

/-- The width of the white-space rune that the reversed byte sequence `s`
starts with, that is, that the sequence itself ends with. -/
def spaceWidthRev (s : Bytes) : Nat :=
  match s with
  | [] => 0
  | b0 :: r0 =>
    if b0 = 9 ∨ b0 = 10 ∨ b0 = 11 ∨ b0 = 12 ∨ b0 = 13 ∨ b0 = 32 then 1
    else
      match r0 with
      | [] => 0
      | b1 :: r1 =>
        if spaceWidth [b1, b0] = 2 then 2
        else
          match r1 with
          | [] => 0
          | b2 :: _ => if spaceWidth [b2, b1, b0] = 3 then 3 else 0

/-- Leading white-space runes removed, at most `fuel` of them. -/
def trimLeft (fuel : Nat) (s : Bytes) : Bytes :=
  match fuel with
  | 0 => s
  | n + 1 => if spaceWidth s = 0 then s else trimLeft n (s.drop (spaceWidth s))

/-- Trailing white-space runes removed from a reversed sequence, at most
`fuel` of them. -/
def trimLeftRev (fuel : Nat) (s : Bytes) : Bytes :=
  match fuel with
  | 0 => s
  | n + 1 => if spaceWidthRev s = 0 then s else trimLeftRev n (s.drop (spaceWidthRev s))

/-- The content without its leading and trailing white space, as defined by
Unicode: `bytes.TrimSpace`.  Bytes that are not valid UTF-8 decode to the
replacement rune, which is not white space. -/
def TrimSpace (s : Bytes) : Bytes :=
  let l := trimLeft s.length s
  (trimLeftRev l.length l.reverse).reverse

/-! ## `crypto/md5` and `ContentID` -/

/-- The sine-derived additive constants of MD5 (RFC 1321). -/
def md5K : List Nat :=
  [0xd76aa478, 0xe8c7b756, 0x242070db, 0xc1bdceee,
   0xf57c0faf, 0x4787c62a, 0xa8304613, 0xfd469501,
   0x698098d8, 0x8b44f7af, 0xffff5bb1, 0x895cd7be,
   0x6b901122, 0xfd987193, 0xa679438e, 0x49b40821,
   0xf61e2562, 0xc040b340, 0x265e5a51, 0xe9b6c7aa,
   0xd62f105d, 0x02441453, 0xd8a1e681, 0xe7d3fbc8,
   0x21e1cde6, 0xc33707d6, 0xf4d50d87, 0x455a14ed,
   0xa9e3e905, 0xfcefa3f8, 0x676f02d9, 0x8d2a4c8a,
   0xfffa3942, 0x8771f681, 0x6d9d6122, 0xfde5380c,
   0xa4beea44, 0x4bdecfa9, 0xf6bb4b60, 0xbebfbc70,
   0x289b7ec6, 0xeaa127fa, 0xd4ef3085, 0x04881d05,
   0xd9d4d039, 0xe6db99e5, 0x1fa27cf8, 0xc4ac5665,
   0xf4292244, 0x432aff97, 0xab9423a7, 0xfc93a039,
   0x655b59c3, 0x8f0ccc92, 0xffeff47d, 0x85845dd1,
   0x6fa87e4f, 0xfe2ce6e0, 0xa3014314, 0x4e0811a1,
   0xf7537e82, 0xbd3af235, 0x2ad7d2bb, 0xeb86d391]

/-- The per-round left-rotation amounts of MD5. -/
def md5S : List Nat :=
  [7, 12, 17, 22, 7, 12, 17, 22, 7, 12, 17, 22, 7, 12, 17, 22,
   5, 9, 14, 20, 5, 9, 14, 20, 5, 9, 14, 20, 5, 9, 14, 20,
   4, 11, 16, 23, 4, 11, 16, 23, 4, 11, 16, 23, 4, 11, 16, 23,
   6, 10, 15, 21, 6, 10, 15, 21, 6, 10, 15, 21, 6, 10, 15, 21]

/-- A 32-bit word of MD5 arithmetic. -/
def word (n : Nat) : Nat := n % 2 ^ 32

/-- Rotation of a 32-bit word to the left by `k` bits. -/
def rotl (x k : Nat) : Nat :=
  word (x <<< k) ||| (word x >>> (32 - k))

/-- Bitwise complement of a 32-bit word. -/
def not32 (x : Nat) : Nat := word x ^^^ 0xFFFFFFFF

/-- The value `n` as `k` bytes, least significant byte first. -/
def leBytes (k n : Nat) : List Nat :=
  (List.range k).map (fun i => n / 256 ^ i % 256)

/-- The number whose bytes, least significant first, are `bs`. -/
def leWord (bs : List Nat) : Nat :=
  bs.foldr (fun b acc => b % 256 + 256 * acc) 0

/-- The message followed by the MD5 padding: a one bit, zero bits up to 56
bytes modulo 64, and the bit length in 64 bits. -/
def md5Pad (msg : Bytes) : Bytes :=
  let zeros := (64 + 55 - msg.length % 64) % 64
  msg ++ [0x80] ++ List.replicate zeros 0 ++ leBytes 8 (msg.length * 8 % 2 ^ 64)

/-- The list cut in consecutive pieces of `n` elements (`fuel` bounds the
number of pieces). -/
def chunks (n : Nat) (fuel : Nat) (l : List Nat) : List (List Nat) :=
  match fuel with
  | 0 => []
  | f + 1 => if l = [] then [] else l.take n :: chunks n f (l.drop n)

/-- The four chaining words of MD5. -/
structure Md5State where
  a : Nat
  b : Nat
  c : Nat
  d : Nat

/-- Operation `i` (of 64) of the MD5 compression function on message words `m`. -/
def md5Op (m : List Nat) (st : Md5State) (i : Nat) : Md5State :=
  let f :=
    if i < 16 then (st.b &&& st.c) ||| (not32 st.b &&& st.d)
    else if i < 32 then (st.d &&& st.b) ||| (not32 st.d &&& st.c)
    else if i < 48 then st.b ^^^ st.c ^^^ st.d
    else st.c ^^^ (st.b ||| not32 st.d)
  let g :=
    if i < 16 then i
    else if i < 32 then (5 * i + 1) % 16
    else if i < 48 then (3 * i + 5) % 16
    else 7 * i % 16
  let sum := word (f + st.a + md5K.getD i 0 + m.getD g 0)
  { a := st.d, d := st.c, c := st.b, b := word (st.b + rotl sum (md5S.getD i 0)) }

/-- The MD5 compression of one 64-byte block into the chaining state. -/
def md5Block (st : Md5State) (block : List Nat) : Md5State :=
  let m := (chunks 4 16 block).map leWord
  let r := (List.range 64).foldl (md5Op m) st
  { a := word (st.a + r.a), b := word (st.b + r.b),
    c := word (st.c + r.c), d := word (st.d + r.d) }

/-- The 16-byte MD5 digest of a message: `md5.New`, `Write`, `Sum(nil)`. -/
def md5Sum (msg : Bytes) : Bytes :=
  let padded := md5Pad msg
  let init : Md5State :=
    { a := 0x67452301, b := 0xefcdab89, c := 0x98badcfe, d := 0x10325476 }
  let r := (chunks 64 padded.length padded).foldl md5Block init
  leBytes 4 r.a ++ leBytes 4 r.b ++ leBytes 4 r.c ++ leBytes 4 r.d

/-- The lower-case hexadecimal digit of a value below 16. -/
def hexDigit (n : Nat) : Nat :=
  if n < 10 then 48 + n else 87 + n

/-- The bytes in lower-case hexadecimal, two digits each: `fmt.Sprintf("%x", b)`. -/
def hex (bs : Bytes) : GoString :=
  bs.flatMap (fun b => [hexDigit (b / 16 % 16), hexDigit (b % 16)])

/-- The fingerprint of a content: the MD5 digest in hexadecimal.  Writing to
the hash never fails, so the fatal branch of the source is unreachable. -/
def ContentID (content : Bytes) : GoString :=
  hex (md5Sum content)

/-! ## Data model -/

/-- Some categories are hidden from the listing: the map `hidden`, whose
lookup of an absent name is `false`. -/
def hidden (name : GoString) : Bool :=
  name = str "bugs" || name = str "fbml" || name = str "hidden" ||
    name = str "secret" || name = str "tests"

/-- One example: `type Example struct`. -/
structure Example where
  Name : GoString
  Content : Bytes
  AutoRun : Bool
  Title : GoString
  URL : GoString
  deriving DecidableEq, Repr

/-- A named group of examples: `type Category struct`. -/
structure Category where
  Name : GoString
  Example : List Example
  Hidden : Bool
  deriving DecidableEq, Repr

/-- A Go `map[string]*Example`: at most one example per key. -/
abbrev ExampleMap := GoString → Option Example

/-- The empty map: `make(map[string]*Example)`. -/
def ExampleMap.empty : ExampleMap :=
  fun _ => none

/-- The map after the assignment `m[key] = value`. -/
def ExampleMap.set (m : ExampleMap) (key : GoString) (value : Example) : ExampleMap :=
  fun k => if k = key then some value else m k

/-- The catalog of one SDK version: `type DB struct`. -/
structure DB where
  Category : List Category
  Reverse : ExampleMap

/-- Stock response for the index page: `emptyExample`.  The fields the source
leaves out have their zero values. -/
def emptyExample : Example :=
  { Name := [], Content := [], AutoRun := true, Title := str "Welcome", URL := str "/" }

/-! ## Errors and outcomes -/

/-- `http.StatusNotFound`. -/
def StatusNotFound : Nat := 404

/-- `http.StatusRequestEntityTooLarge`. -/
def StatusRequestEntityTooLarge : Nat := 413

/-- A Go `error` value that `Load` or `Save` returns. -/
inductive Error where
  /-- An error made by `errcode.New(code, format, args...)`: an HTTP status
  code and the formatted message. -/
  | errcode (code : Nat) (msg : GoString)
  /-- An error of the remote store client, passed on unchanged. -/
  | store (msg : GoString)
  deriving DecidableEq, Repr

/-- How `loadDir` ends without a catalog. -/
inductive Fault where
  /-- The error value made by `fmt.Errorf`, with its message. -/
  | err (msg : GoString)
  /-- A run-time panic: slice bounds out of range. -/
  | panic
  deriving DecidableEq, Repr

/-- How the process ends inside a call. -/
inductive Crash where
  /-- The call `log.Fatal(err)`: the process exits. -/
  | fatal (msg : GoString)
  /-- A run-time panic that nothing recovers. -/
  | panic
  deriving DecidableEq, Repr

/-! ## The environment: file system and remote store -/

/-- What `ioutil.ReadDir` tells about one directory entry: `os.FileInfo`. -/
structure FileInfo where
  Name : GoString
  IsDir : Bool
  deriving DecidableEq, Repr

/-- The file system as `loadDir` sees it: the results of `ioutil.ReadDir` and
`ioutil.ReadFile` for every path, an error being given by its message. -/
structure FS where
  ReadDir : GoString → Except GoString (List FileInfo)
  ReadFile : GoString → Except GoString Bytes

/-- Modelled from the spec: the remote store client (package `redis` of this
repository, not among the sources), an "opaque GET/SET byte-blob key-value
interface" with `get(key) -> bytes | absent` and
`set(key, bytes) -> success | failure`; a "remote store read/write error" is
"surfaced to the caller unmodified".  `readFault` and `writeFault` hold the
error that a read or a write meets while the store cannot serve it. -/
structure Store where
  data : GoString → Option Bytes
  readFault : Option GoString
  writeFault : Option GoString

/-- Modelled from the spec: the call `redis.Client().Call("GET", key)`; the
reply `none` is the nil item. -/
def Store.GET (st : Store) (key : GoString) : Except Error (Option Bytes) :=
  match st.readFault with
  | some msg => .error (.store msg)
  | none => .ok (st.data key)

/-- Modelled from the spec: the call `redis.Client().Call("SET", key, value)`;
the result is the store after the write. -/
def Store.SET (st : Store) (key : GoString) (value : Bytes) : Except Error Store :=
  match st.writeFault with
  | some msg => .error (.store msg)
  | none => .ok { st with data := fun k => if k = key then some value else st.data k }

/-- The values fixed at start-up: the file system and the two directory flags
`rell.examples.old` and `rell.examples.new`. -/
structure Env where
  fs : FS
  oldExamplesDir : GoString
  newExamplesDir : GoString

/-- The mutable state of the process and of its collaborator: the remote
store and the package variables `old` and `mu` (`none` is the nil pointer). -/
structure State where
  store : Store
  old : Option DB
  mu : Option DB

/-! ## Loading a catalog from a directory -/

/-- The inner loop of `loadDir`: the files of one category directory in
listing order.  `examples` is `category.Example` and `reverse` is `db.Reverse`
as built so far. -/
def loadExamples (fs : FS) (categoryDir categoryName : GoString) :
    List FileInfo → List Example → ExampleMap → Except Fault (List Example × ExampleMap)
  | [], examples, reverse => .ok (examples, reverse)
  | exampleFileInfo :: rest, examples, reverse =>
    let exampleName := exampleFileInfo.Name
    let exampleFile := Join [categoryDir, exampleName]
    match fs.ReadFile exampleFile with
    | .error err =>
      .error (.err (str "Failed to read example " ++ exampleFile ++ str ": " ++ err))
    | .ok content =>
      match sliceTo exampleName ((exampleName.length : Int) - 5) with
      | none => .error .panic
      | some cleanName =>
        let ex : Example :=
          { Name := cleanName
            Content := content
            AutoRun := true
            Title := categoryName ++ str " · " ++ cleanName
            URL := Join [str "/", categoryName, cleanName] }
        loadExamples fs categoryDir categoryName rest (examples ++ [ex])
          (reverse.set (ContentID (TrimSpace content)) ex)

/-- The outer loop of `loadDir`: the entries of the root directory in listing
order.  An entry that is not a directory is logged and skipped. -/
def loadCategories (fs : FS) (name : GoString) : List FileInfo → DB → Except Fault DB
  | [], db => .ok db
  | categoryFileInfo :: rest, db =>
    let categoryName := categoryFileInfo.Name
    if !categoryFileInfo.IsDir then loadCategories fs name rest db
    else
      let categoryDir := Join [name, categoryName]
      match fs.ReadDir categoryDir with
      | .error err =>
        .error (.err (str "Failed to read category " ++ categoryDir ++ str ": " ++ err))
      | .ok examples =>
        match loadExamples fs categoryDir categoryName examples [] db.Reverse with
        | .error f => .error f
        | .ok (loaded, reverse) =>
          let category : Category :=
            { Name := categoryName, Hidden := hidden categoryName, Example := loaded }
          loadCategories fs name rest
            { Category := db.Category ++ [category], Reverse := reverse }

/-- Loads a specific examples directory: `loadDir`. -/
def loadDir (fs : FS) (name : GoString) : Except Fault DB :=
  match fs.ReadDir name with
  | .error err => .error (.err (str "Failed to read directory " ++ name ++ str ": " ++ err))
  | .ok categories =>
    loadCategories fs name categories
      { Category := []
        Reverse := ExampleMap.empty.set (ContentID emptyExample.Content) emptyExample }

/-! ## Catalog access -/

/-- Get the DB for a given SDK version: `GetDB`.  A version is loaded on its
first use and kept in `mu` or `old`; a load that fails is fatal. -/
def GetDB (env : Env) (s : State) (version : GoString) : Except Crash (DB × State) :=
  if version = str "mu" then
    match s.mu with
    | some db => .ok (db, s)
    | none =>
      match loadDir env.fs env.newExamplesDir with
      | .ok db => .ok (db, { s with mu := some db })
      | .error (.err msg) => .error (.fatal msg)
      | .error .panic => .error .panic
  else
    match s.old with
    | some db => .ok (db, s)
    | none =>
      match loadDir env.fs env.oldExamplesDir with
      | .ok db => .ok (db, { s with old := some db })
      | .error (.err msg) => .error (.fatal msg)
      | .error .panic => .error .panic

/-- Find a category by its name: `(*DB).FindCategory`; `none` is nil. -/
def DB.FindCategory (d : DB) (name : GoString) : Option Examples.Category :=
  d.Category.find? (fun category => category.Name = name)

/-- Find an example by its name: `(*Category).FindExample`; `none` is nil. -/
def Category.FindExample (c : Examples.Category) (name : GoString) : Option Examples.Example :=
  c.Example.find? (fun ex => ex.Name = name)

/-- The key of a saved example in the remote store: `makeKey`. -/
def makeKey (id : GoString) : GoString :=
  str "fbrell_examples:" ++ id

/-! ## `Load` and `Save` -/

/-- The error `errcode.New(http.StatusNotFound, "Invalid URL: %s", path)`. -/
def invalidURL (path : GoString) : Error :=
  .errcode StatusNotFound (str "Invalid URL: " ++ path)

/-- The first part of `Load`, after the stock example: the path segments that
name the example, or the error for a path of another shape.  A path of four
segments that starts with `raw` or `simple` stands for its last two. -/
def pathParts (path : GoString) (parts : List GoString) : Except Error (List GoString) :=
  if parts.length = 4 then
    if parts.getD 1 [] ≠ str "raw" ∧ parts.getD 1 [] ≠ str "simple" then
      .error (invalidURL path)
    else .ok [str "", parts.getD 2 [], parts.getD 3 []]
  else if parts.length ≠ 3 then .error (invalidURL path)
  else .ok parts

/-- The second part of `Load`: a saved example is read from the remote store,
any other one is looked up in the catalog of the version. -/
def resolve (env : Env) (s : State) (version path : GoString) (parts : List GoString) :
    Except Crash (Except Error Example × State) :=
  if parts.getD 1 [] = str "saved" then
    match s.store.GET (makeKey (parts.getD 2 [])) with
    | .error err => .ok (.error err, s)
    | .ok none =>
      .ok (.error (.errcode StatusNotFound (str "Example not found: " ++ path)), s)
    | .ok (some content) =>
      .ok (.ok { Name := [], Content := content, AutoRun := false,
                 Title := str "Stored Example", URL := path }, s)
  else
    match GetDB env s version with
    | .error crash => .error crash
    | .ok (db, s1) =>
      match db.FindCategory (parts.getD 1 []) with
      | none =>
        .ok (.error (.errcode StatusNotFound
          (str "Could not find category: " ++ parts.getD 1 [])), s1)
      | some category =>
        match category.FindExample (parts.getD 2 []) with
        | none =>
          .ok (.error (.errcode StatusNotFound
            (str "Could not find example: " ++ parts.getD 2 [])), s1)
        | some ex => .ok (.ok ex, s1)

/-- Load an Example for a given version and path: `Load`.  The result is what
the call returns and the state it leaves, or the way the process ends. -/
def Load (env : Env) (s : State) (version path : GoString) :
    Except Crash (Except Error Example × State) :=
  let parts := Split path slash
  if parts.length = 2 ∧ parts.getD 1 [] = str "" then .ok (.ok emptyExample, s)
  else
    match pathParts path parts with
    | .error err => .ok (.error err, s)
    | .ok parts => resolve env s version path parts

/-- Save an Example: `Save`.  The result is the returned error (`none` is nil)
and the state the call leaves. -/
def Save (s : State) (id : GoString) (content : Bytes) : Option Error × State :=
  if content.length > 10240 then
    (some (.errcode StatusRequestEntityTooLarge (str "Maximum allowed size is 10 kilobytes.")), s)
  else
    match s.store.SET (makeKey id) content with
    | .error err => (some err, s)
    | .ok store => (none, { s with store := store })

/-! ## Notions used to state the properties -/

/-- The key of an example in the reverse index: the fingerprint of its
trimmed content. -/
def fingerprint (e : Example) : GoString :=
  ContentID (TrimSpace e.Content)

/-- The map after the assignments `m[fingerprint e] = e` for the examples of
`es` in order: a later example replaces an earlier one of equal fingerprint. -/
def indexAll (m : ExampleMap) (es : List Example) : ExampleMap :=
  es.foldl (fun acc e => acc.set (fingerprint e) e) m

/-- All the examples of a catalog, in the order in which they were loaded. -/
def DB.examples (d : DB) : List Example :=
  d.Category.flatMap (fun c => c.Example)

/-! ## A small installation, for concrete evaluation

Four example directories: `db/old` holds a stray file, a category with two
examples of equal trimmed content and a hidden category with a blank example;
`db/mu` holds one category with one example; `db/js` and `db/txt` hold one
category each, with one file whose name does not end in `.html`. -/

/-- The directory listings of the small installation. -/
def demoReadDir (p : GoString) : Except GoString (List FileInfo) :=
  if p = str "db/old" then
    .ok [⟨str "README.md", false⟩, ⟨str "canvas", true⟩, ⟨str "tests", true⟩]
  else if p = str "db/old/canvas" then
    .ok [⟨str "intro.html", false⟩, ⟨str "login.html", false⟩]
  else if p = str "db/old/tests" then .ok [⟨str "blank.html", false⟩]
  else if p = str "db/mu" then .ok [⟨str "auth", true⟩]
  else if p = str "db/mu/auth" then .ok [⟨str "login.html", false⟩]
  else if p = str "db/js" then .ok [⟨str "misc", true⟩]
  else if p = str "db/js/misc" then .ok [⟨str "a.js", false⟩]
  else if p = str "db/txt" then .ok [⟨str "docs", true⟩]
  else if p = str "db/txt/docs" then .ok [⟨str "notes.txt", false⟩]
  else .error (str "no such file or directory")

/-- The file contents of the small installation. -/
def demoReadFile (p : GoString) : Except GoString Bytes :=
  if p = str "db/old/canvas/intro.html" then .ok (str "<p>hi</p>\n")
  else if p = str "db/old/canvas/login.html" then .ok (str "<p>hi</p>")
  else if p = str "db/old/tests/blank.html" then .ok (str "\n")
  else if p = str "db/mu/auth/login.html" then .ok (str "<b>login</b>")
  else if p = str "db/js/misc/a.js" then .ok (str "alert(1)")
  else if p = str "db/txt/docs/notes.txt" then .ok (str "notes")
  else .error (str "no such file or directory")

/-- The small installation. -/
def demoEnv : Env :=
  { fs := { ReadDir := demoReadDir, ReadFile := demoReadFile }
    oldExamplesDir := str "db/old"
    newExamplesDir := str "db/mu" }

/-- A store without records that serves reads and writes. -/
def emptyStore : Store :=
  { data := fun _ => none, readFault := none, writeFault := none }

/-- The state of a process that has just started, with an empty store. -/
def freshState : State :=
  { store := emptyStore, old := none, mu := none }

/-- A store without records whose reads fail while its writes succeed. -/
def unreadableStore : Store :=
  { data := fun _ => none, readFault := some (str "connection reset"), writeFault := none }

/-- The example `db/old/canvas/intro.html` as `loadDir` builds it. -/
def demoIntro : Example :=
  { Name := str "intro", Content := str "<p>hi</p>\n", AutoRun := true,
    Title := str "canvas · intro", URL := str "/canvas/intro" }

/-- The example `db/old/canvas/login.html` as `loadDir` builds it. -/
def demoLogin : Example :=
  { Name := str "login", Content := str "<p>hi</p>", AutoRun := true,
    Title := str "canvas · login", URL := str "/canvas/login" }

/-- The example `db/old/tests/blank.html` as `loadDir` builds it. -/
def demoBlank : Example :=
  { Name := str "blank", Content := str "\n", AutoRun := true,
    Title := str "tests · blank", URL := str "/tests/blank" }

/-- The example `db/mu/auth/login.html` as `loadDir` builds it. -/
def demoAuth : Example :=
  { Name := str "login", Content := str "<b>login</b>", AutoRun := true,
    Title := str "auth · login", URL := str "/auth/login" }

/-- The category `canvas` of `db/old`. -/
def demoCanvas : Category :=
  { Name := str "canvas", Example := [demoIntro, demoLogin], Hidden := false }

/-- The category `tests` of `db/old`. -/
def demoTests : Category :=
  { Name := str "tests", Example := [demoBlank], Hidden := true }

/-- The catalog of `db/old`. -/
def demoOldDB : DB :=
  { Category := [demoCanvas, demoTests]
    Reverse := indexAll (ExampleMap.empty.set (ContentID []) emptyExample)
      [demoIntro, demoLogin, demoBlank] }

/-- The example `db/txt/docs/notes.txt` as `loadDir` builds it. -/
def demoNotes : Example :=
  { Name := str "note", Content := str "notes", AutoRun := true,
    Title := str "docs · note", URL := str "/docs/note" }

/-- The catalog of `db/txt`. -/
def demoTxtDB : DB :=
  { Category := [{ Name := str "docs", Example := [demoNotes], Hidden := false }]
    Reverse := indexAll (ExampleMap.empty.set (ContentID []) emptyExample) [demoNotes] }

/-- The catalog of `db/mu`. -/
def demoMuDB : DB :=
  { Category := [{ Name := str "auth", Example := [demoAuth], Hidden := false }]
    Reverse := indexAll (ExampleMap.empty.set (ContentID []) emptyExample) [demoAuth] }

/-! ## Sequences of calls -/

/-- A call of the sequences in which the catalogs are used. -/
inductive Call where
  /-- The call `GetDB(version)`. -/
  | getDB (version : GoString)
  /-- The call `Load(version, path)`. -/
  | load (version path : GoString)
  deriving DecidableEq, Repr

/-- The runs of `loadDir` inside `GetDB(version)`, each given by the name of
the package variable it fills: one run when the variable of the version is nil,
none otherwise. -/
def loadsOfGetDB (s : State) (version : GoString) : List GoString :=
  if version = str "mu" then
    match s.mu with
    | some _ => []
    | none => [str "mu"]
  else
    match s.old with
    | some _ => []
    | none => [str "old"]

/-- The runs of `loadDir` inside `Load(version, path)`: those of its call of
`GetDB`, which is reached by a path of catalog shape only. -/
def loadsOfLoad (s : State) (version path : GoString) : List GoString :=
  let parts := Split path slash
  if parts.length = 2 ∧ parts.getD 1 [] = str "" then []
  else
    match pathParts path parts with
    | .error _ => []
    | .ok parts => if parts.getD 1 [] = str "saved" then [] else loadsOfGetDB s version

/-- The runs of `loadDir` inside one call. -/
def Call.loads (s : State) : Call → List GoString
  | .getDB version => loadsOfGetDB s version
  | .load version path => loadsOfLoad s version path

/-- The state that one call leaves, or the way the process ends in it. -/
def Call.step (env : Env) (s : State) : Call → Except Crash State
  | .getDB version => (GetDB env s version).map Prod.snd
  | .load version path => (Load env s version path).map Prod.snd

/-- A sequence of calls made one after the other: the runs of `loadDir` in
the order in which they happen and the state after the last call, or the way
the process ends (a load that fails ends it). -/
def run (env : Env) : State → List Call → Except Crash (List GoString × State)
  | s, [] => .ok ([], s)
  | s, c :: rest =>
    match c.step env s with
    | .error crash => .error crash
    | .ok s1 =>
      match run env s1 rest with
      | .error crash => .error crash
      | .ok (loads, s2) => .ok (c.loads s ++ loads, s2)

/-! ## What `loadDir` builds, entry by entry -/

/-- The Example `e` is the one that `loadDir` builds for the entry `fi` of the
category directory `categoryDir`, of the category `categoryName`: the file is
read, its name has five bytes or more, and the fields are those of the source. -/
def builtFrom (fs : FS) (categoryDir categoryName : GoString) (fi : FileInfo)
    (e : Example) : Prop :=
  5 ≤ fi.Name.length ∧
    e.Name = fi.Name.take (fi.Name.length - 5) ∧
    fs.ReadFile (Join [categoryDir, fi.Name]) = .ok e.Content ∧
    e.AutoRun = true ∧
    e.Title = categoryName ++ str " · " ++ e.Name ∧
    e.URL = Join [str "/", categoryName, e.Name]

/-- The Category `c` is the one that `loadDir` builds for the directory entry
`fi` of the root directory `name`: one Example for each entry of the listing
of the category directory, in the order of the listing. -/
def categoryFrom (fs : FS) (name : GoString) (fi : FileInfo) (c : Category) : Prop :=
  c.Name = fi.Name ∧ c.Hidden = hidden fi.Name ∧
    ∃ files, fs.ReadDir (Join [name, fi.Name]) = .ok files ∧
      List.Forall₂ (builtFrom fs (Join [name, fi.Name]) fi.Name) files c.Example

/-- A name that a directory listing can hold: not empty, without `/`, and
neither `.` nor `..`. -/
def validName (n : GoString) : Prop :=
  n ≠ [] ∧ slash ∉ n ∧ n ≠ str "." ∧ n ≠ str ".."

/-- Whether a name is one that a directory listing can hold is decidable. -/
instance validNameDecidable (n : GoString) : Decidable (validName n) := by
  unfold validName
  infer_instance

/-- The catalog was built by `loadDir`. -/
def DB.loaded (db : DB) : Prop :=
  ∃ fs name, loadDir fs name = .ok db

/-- The cached catalogs of the state were built by `loadDir`, as they are in
every state that a process reaches. -/
def State.loaded (s : State) : Prop :=
  (∀ db, s.old = some db → db.loaded) ∧ (∀ db, s.mu = some db → db.loaded)

/-! ## A directory with a file named `.html` -/

/-- The listings of a category directory `odd/c` whose one file is named
`.html`. -/
def oddReadDir (p : GoString) : Except GoString (List FileInfo) :=
  if p = str "odd" then .ok [⟨str "c", true⟩]
  else if p = str "odd/c" then .ok [⟨str ".html", false⟩]
  else .error (str "no such file or directory")

/-- The file contents of the directory `odd`. -/
def oddReadFile (p : GoString) : Except GoString Bytes :=
  if p = str "odd/c/.html" then .ok (str "<i>x</i>")
  else .error (str "no such file or directory")

/-- The example `odd/c/.html` as `loadDir` builds it. -/
def oddExample : Example :=
  { Name := str "", Content := str "<i>x</i>", AutoRun := true,
    Title := str "c · ", URL := str "/c" }

/-- The catalog of `odd`. -/
def oddDB : DB :=
  { Category := [{ Name := str "c", Example := [oddExample], Hidden := false }]
    Reverse := indexAll (ExampleMap.empty.set (ContentID []) emptyExample) [oddExample] }

/-! # Verification -/

/-! ## Splitting a path -/

theorem Split_ne_nil (s : GoString) (sep : Nat) : Split s sep ≠ [] := by
  induction s with
  | nil => simp [Split]
  | cons c cs ih =>
    unfold Split
    split
    · simp
    · split <;> simp

theorem Split_of_not_mem (s : GoString) (sep : Nat) (h : sep ∉ s) : Split s sep = [s] := by
  induction s with
  | nil => simp [Split]
  | cons c cs ih =>
    have hc : c ≠ sep := fun e => h (by simp [e])
    have hcs : sep ∉ cs := fun m => h (by simp [m])
    simp [Split, hc, ih hcs]

theorem Split_append (a b : GoString) (sep : Nat) (h : sep ∉ a) :
    Split (a ++ sep :: b) sep = a :: Split b sep := by
  induction a with
  | nil => simp [Split]
  | cons c cs ih =>
    have hc : c ≠ sep := fun e => h (by simp [e])
    have hcs : sep ∉ cs := fun m => h (by simp [m])
    simp [Split, hc, ih hcs]

theorem str_slash : str "/" = [slash] := by decide
theorem str_empty : str "" = [] := by decide
theorem str_raw : str "/raw/" = slash :: (str "raw" ++ [slash]) := by decide
theorem str_simple : str "/simple/" = slash :: (str "simple" ++ [slash]) := by decide
theorem str_saved : str "/saved/" = slash :: (str "saved" ++ [slash]) := by decide
theorem slash_not_mem_raw : slash ∉ str "raw" := by decide
theorem slash_not_mem_simple : slash ∉ str "simple" := by decide
theorem slash_not_mem_saved : slash ∉ str "saved" := by decide

theorem Split_plain (cat ex : GoString) (hcat : slash ∉ cat) (hex : slash ∉ ex) :
    Split (str "/" ++ cat ++ str "/" ++ ex) slash = [[], cat, ex] := by
  have e : str "/" ++ cat ++ str "/" ++ ex = [] ++ slash :: (cat ++ slash :: ex) := by
    simp [str_slash]
  rw [e, Split_append _ _ _ (by simp), Split_append _ _ _ hcat, Split_of_not_mem _ _ hex]

theorem Split_mode (mode cat ex : GoString) (hmode : slash ∉ mode) (hcat : slash ∉ cat)
    (hex : slash ∉ ex) :
    Split (slash :: (mode ++ [slash]) ++ cat ++ str "/" ++ ex) slash = [[], mode, cat, ex] := by
  have e : slash :: (mode ++ [slash]) ++ cat ++ str "/" ++ ex
      = [] ++ slash :: (mode ++ slash :: (cat ++ slash :: ex)) := by
    simp [str_slash]
  rw [e, Split_append _ _ _ (by simp), Split_append _ _ _ hmode, Split_append _ _ _ hcat,
    Split_of_not_mem _ _ hex]

/-! ## The shape of `Load` -/

theorem Load_three (env : Env) (s : State) (version path a b c : GoString)
    (h : Split path slash = [a, b, c]) :
    Load env s version path = resolve env s version path [a, b, c] := by
  simp [Load, h, pathParts]

theorem Load_four (env : Env) (s : State) (version path a m c d : GoString)
    (h : Split path slash = [a, m, c, d]) (hm : m = str "raw" ∨ m = str "simple") :
    Load env s version path = resolve env s version path [str "", c, d] := by
  have hm2 : ¬ (m ≠ str "raw" ∧ m ≠ str "simple") := by
    rcases hm with e | e <;> simp [e]
  simp [Load, h, pathParts, hm2]

theorem resolve_catalog (env : Env) (s : State) (version p q a a2 b c : GoString)
    (hb : b ≠ str "saved") :
    resolve env s version p [a, b, c] = resolve env s version q [a2, b, c] := by
  simp [resolve, hb]

theorem resolve_saved (env : Env) (s : State) (version p a c : GoString) :
    resolve env s version p [a, str "saved", c] =
      .ok (match s.store.GET (makeKey c) with
        | .error err => .error err
        | .ok none => .error (.errcode StatusNotFound (str "Example not found: " ++ p))
        | .ok (some content) =>
          .ok { Name := [], Content := content, AutoRun := false,
                Title := str "Stored Example", URL := p }, s) := by
  simp only [resolve, List.getD_cons_zero, List.getD_cons_succ, if_true]
  cases h : s.store.GET (makeKey c) with
  | error e => rfl
  | ok o => cases o <;> rfl

/-- C4: for every version and every state of the store and of the two cached
catalogs, `Load(version, "/")` returns the stock example (Title "Welcome",
URL "/", AutoRun true, empty Name and Content) and leaves the state as it was:
neither the store nor the file system decides the result, and no catalog is
loaded. -/
theorem C4_load_root_is_stock (env : Env) (s : State) (version : GoString) :
    Load env s version (str "/") = .ok (.ok emptyExample, s) ∧
      emptyExample =
        { Name := [], Content := [], AutoRun := true, Title := str "Welcome", URL := str "/" } := by
  refine ⟨?_, rfl⟩
  have h : Split (str "/") slash = [[], []] := by decide
  simp [Load, h, str_empty]

theorem Load_saved (env : Env) (s : State) (version id : GoString) (hid : slash ∉ id) :
    Load env s version (str "/saved/" ++ id) =
      .ok (match s.store.GET (makeKey id) with
        | .error err => .error err
        | .ok none =>
          .error (.errcode StatusNotFound (str "Example not found: " ++ (str "/saved/" ++ id)))
        | .ok (some content) =>
          .ok { Name := [], Content := content, AutoRun := false,
                Title := str "Stored Example", URL := str "/saved/" ++ id }, s) := by
  have hs : Split (str "/saved/" ++ id) slash = [[], str "saved", id] := by
    have e : str "/saved/" ++ id = [] ++ slash :: (str "saved" ++ slash :: id) := by
      simp [str_saved]
    rw [e, Split_append _ _ _ (by simp), Split_append _ _ _ slash_not_mem_saved,
      Split_of_not_mem _ _ hid]
  rw [Load_three env s version _ _ _ _ hs, resolve_saved]

theorem Split_length_of_mem (s : GoString) (sep : Nat) (h : sep ∈ s) :
    2 ≤ (Split s sep).length := by
  induction s with
  | nil => simp at h
  | cons c cs ih =>
    unfold Split
    by_cases hc : c = sep
    · have := Split_ne_nil cs sep
      simp only [hc, if_true, List.length_cons]
      cases hsp : Split cs sep with
      | nil => exact absurd hsp this
      | cons p ps => simp
    · have hm : sep ∈ cs := by
        rcases List.mem_cons.mp h with e | m
        · exact absurd e.symm hc
        · exact m
      have := ih hm
      simp only [hc, if_false]
      cases hsp : Split cs sep with
      | nil => simp [hsp] at this
      | cons p ps => simpa [hsp] using this

/-- The path of a saved example whose identifier holds a `/` has four segments
or more, the second one being `saved`: it is an invalid URL. -/
theorem Load_saved_slash (env : Env) (s : State) (version id : GoString) (hid : slash ∈ id) :
    Load env s version (str "/saved/" ++ id) =
      .ok (.error (invalidURL (str "/saved/" ++ id)), s) := by
  have hs : Split (str "/saved/" ++ id) slash = [] :: str "saved" :: Split id slash := by
    have e : str "/saved/" ++ id = [] ++ slash :: (str "saved" ++ slash :: id) := by
      simp [str_saved]
    rw [e, Split_append _ _ _ (by simp), Split_append _ _ _ slash_not_mem_saved]
  have hl := Split_length_of_mem id slash hid
  have hsv : str "saved" ≠ str "raw" ∧ str "saved" ≠ str "simple" := by decide
  have hne : str "saved" ≠ str "" := by decide
  cases hsp : Split id slash with
  | nil => simp [hsp] at hl
  | cons p ps =>
    cases ps with
    | nil => simp [hsp] at hl
    | cons q qs =>
      cases qs with
      | nil => simp [Load, hs, hsp, pathParts, hsv]
      | cons r rs => simp [Load, hs, hsp, pathParts]

/-- C1 (as amended): for every version, every state and all segments `cat` and
`ex` without `/`: when `cat` is not `saved`, the loads of `/raw/cat/ex` and of
`/simple/cat/ex` give exactly the result of the load of `/cat/ex`; when `cat`
is `saved`, each of the three loads gives the result of the same store read
with its own request path in it and leaves the state as it was: the error of
the store unchanged, or the 404 error "Example not found: " followed by the
path as requested, or the Example with the stored Content, no Name, the Title
"Stored Example" and the path as requested for URL. -/
theorem C1_display_mode_same_result (env : Env) (s : State) (version cat ex : GoString)
    (hcat : slash ∉ cat) (hex : slash ∉ ex) :
    (cat ≠ str "saved" →
      Load env s version (str "/raw/" ++ cat ++ str "/" ++ ex) =
        Load env s version (str "/" ++ cat ++ str "/" ++ ex) ∧
      Load env s version (str "/simple/" ++ cat ++ str "/" ++ ex) =
        Load env s version (str "/" ++ cat ++ str "/" ++ ex)) ∧
    (cat = str "saved" →
      ∀ path, (path = str "/raw/" ++ cat ++ str "/" ++ ex ∨
          path = str "/simple/" ++ cat ++ str "/" ++ ex ∨
          path = str "/" ++ cat ++ str "/" ++ ex) →
        Load env s version path =
          .ok (match s.store.GET (makeKey ex) with
            | .error err => .error err
            | .ok none => .error (.errcode StatusNotFound (str "Example not found: " ++ path))
            | .ok (some content) =>
              .ok { Name := [], Content := content, AutoRun := false,
                    Title := str "Stored Example", URL := path }, s)) := by
  have hp := Load_three env s version _ _ _ _ (Split_plain cat ex hcat hex)
  have hr := Load_four env s version _ _ _ _ _
    (Split_mode (str "raw") cat ex slash_not_mem_raw hcat hex) (Or.inl rfl)
  have hsi := Load_four env s version _ _ _ _ _
    (Split_mode (str "simple") cat ex slash_not_mem_simple hcat hex) (Or.inr rfl)
  rw [← str_raw] at hr
  rw [← str_simple] at hsi
  constructor
  · intro hs
    rw [hp, hr, hsi]
    exact ⟨resolve_catalog env s version (str "/raw/" ++ cat ++ str "/" ++ ex)
        (str "/" ++ cat ++ str "/" ++ ex) (str "") [] cat ex hs,
      resolve_catalog env s version (str "/simple/" ++ cat ++ str "/" ++ ex)
        (str "/" ++ cat ++ str "/" ++ ex) (str "") [] cat ex hs⟩
  · intro hs path hpath
    subst hs
    rcases hpath with e | e | e <;> subst e
    · rw [hr, resolve_saved]
    · rw [hsi, resolve_saved]
    · rw [hp, resolve_saved]

/-- C1, witness: the category `canvas` and the example `intro` of the small
installation, and the record `hi` saved under `x`, read through
`/raw/saved/x`. -/
theorem C1_display_mode_same_result_witness :
    (Load demoEnv freshState (str "old")
          (str "/raw/" ++ str "canvas" ++ str "/" ++ str "intro") =
        Load demoEnv freshState (str "old")
          (str "/" ++ str "canvas" ++ str "/" ++ str "intro") ∧
      Load demoEnv freshState (str "old")
          (str "/simple/" ++ str "canvas" ++ str "/" ++ str "intro") =
        Load demoEnv freshState (str "old")
          (str "/" ++ str "canvas" ++ str "/" ++ str "intro")) ∧
    Load demoEnv (Save freshState (str "x") (str "hi")).2 (str "old")
        (str "/raw/" ++ str "saved" ++ str "/" ++ str "x") =
      .ok (.ok { Name := [], Content := str "hi", AutoRun := false,
                 Title := str "Stored Example",
                 URL := str "/raw/" ++ str "saved" ++ str "/" ++ str "x" },
        (Save freshState (str "x") (str "hi")).2) :=
  ⟨(C1_display_mode_same_result demoEnv freshState (str "old") (str "canvas") (str "intro")
      (by decide) (by decide)).1 (by decide),
    (C1_display_mode_same_result demoEnv (Save freshState (str "x") (str "hi")).2 (str "old")
      (str "saved") (str "x") (by decide) (by decide)).2 rfl _ (Or.inl rfl)⟩

/-- C1, counterexample: with the record `hi` saved under `x`, the load of
`/raw/saved/x` returns an Example whose URL is `/raw/saved/x`, the load of
`/saved/x` one whose URL is `/saved/x`: the two results differ. -/
theorem C1_counterexample :
    Load demoEnv (Save freshState (str "x") (str "hi")).2 (str "old")
        (str "/raw/" ++ str "saved" ++ str "/" ++ str "x") =
      .ok (.ok { Name := [], Content := str "hi", AutoRun := false,
                 Title := str "Stored Example", URL := str "/raw/saved/x" },
        (Save freshState (str "x") (str "hi")).2) ∧
    Load demoEnv (Save freshState (str "x") (str "hi")).2 (str "old")
        (str "/" ++ str "saved" ++ str "/" ++ str "x") =
      .ok (.ok { Name := [], Content := str "hi", AutoRun := false,
                 Title := str "Stored Example", URL := str "/saved/x" },
        (Save freshState (str "x") (str "hi")).2) ∧
    Load demoEnv (Save freshState (str "x") (str "hi")).2 (str "old")
        (str "/raw/" ++ str "saved" ++ str "/" ++ str "x") ≠
      Load demoEnv (Save freshState (str "x") (str "hi")).2 (str "old")
        (str "/" ++ str "saved" ++ str "/" ++ str "x") := by
  refine ⟨rfl, rfl, ?_⟩
  intro h
  have h2 := congrArg (fun r : Except Crash (Except Error Example × State) =>
    match r with
    | .ok (.ok e, _) => e.URL
    | _ => []) h
  revert h2
  decide

theorem Save_ok_iff (s : State) (id : GoString) (content : Bytes) :
    (Save s id content).1 = none ↔ content.length ≤ 10240 ∧ s.store.writeFault = none := by
  unfold Save
  by_cases hl : content.length > 10240
  · simp [hl]
  · cases hw : s.store.writeFault with
    | none => simp [hl, Store.SET, hw]; omega
    | some m => simp [hl, Store.SET, hw]

theorem Save_ok_state (s : State) (id : GoString) (content : Bytes)
    (h : (Save s id content).1 = none) :
    (Save s id content).2.store.readFault = s.store.readFault ∧
      (Save s id content).2.store.data (makeKey id) = some content := by
  obtain ⟨hl, hw⟩ := (Save_ok_iff s id content).mp h
  have hl2 : ¬ content.length > 10240 := by omega
  simp [Save, hl2, Store.SET, hw]

/-- C2 (as amended): for every identifier without `/` and every payload, if
`Save(id, content)` returns no error and the store serves reads, then the load
of `/saved/id` that follows succeeds, for any version, and returns an Example
whose Content is the payload (with no Name, the Title "Stored Example" and the
path as URL), leaving the state as `Save` left it. -/
theorem C2_save_load_round_trip (env : Env) (s : State) (version id : GoString)
    (content : Bytes) (hid : slash ∉ id) (hsave : (Save s id content).1 = none)
    (hread : s.store.readFault = none) :
    Load env (Save s id content).2 version (str "/saved/" ++ id) =
      .ok (.ok { Name := [], Content := content, AutoRun := false,
                 Title := str "Stored Example", URL := str "/saved/" ++ id },
        (Save s id content).2) := by
  obtain ⟨hr, hd⟩ := Save_ok_state s id content hsave
  rw [Load_saved env _ version id hid]
  simp [Store.GET, hr, hread, hd]

/-- C2, witness: the payload `hello` saved under `x` in an empty store. -/
theorem C2_save_load_round_trip_witness :
    Load demoEnv (Save freshState (str "x") (str "hello")).2 (str "mu") (str "/saved/" ++ str "x") =
      .ok (.ok { Name := [], Content := str "hello", AutoRun := false,
                 Title := str "Stored Example", URL := str "/saved/" ++ str "x" },
        (Save freshState (str "x") (str "hello")).2) :=
  C2_save_load_round_trip demoEnv freshState (str "mu") (str "x") (str "hello")
    (by decide) (by decide) rfl

/-- C2, counterexample: `Save("a/b", "hi")` returns no error, and the load of
`/saved/a/b` that follows fails with the invalid-URL error, the path having
four segments; and on a store that takes writes while its reads fail,
`Save("x", "hi")` returns no error and the load of `/saved/x` returns the
error of the store. -/
theorem C2_counterexample :
    ((Save freshState (str "a/b") (str "hi")).1 = none ∧
      Load demoEnv (Save freshState (str "a/b") (str "hi")).2 (str "old")
          (str "/saved/" ++ str "a/b") =
        .ok (.error (.errcode StatusNotFound (str "Invalid URL: /saved/a/b")),
          (Save freshState (str "a/b") (str "hi")).2)) ∧
    ((Save { freshState with store := unreadableStore } (str "x") (str "hi")).1 = none ∧
      Load demoEnv (Save { freshState with store := unreadableStore } (str "x") (str "hi")).2
          (str "old") (str "/saved/" ++ str "x") =
        .ok (.error (.store (str "connection reset")),
          (Save { freshState with store := unreadableStore } (str "x") (str "hi")).2)) := by
  refine ⟨⟨by decide, ?_⟩, ⟨by decide, ?_⟩⟩
  · rw [Load_saved_slash demoEnv _ (str "old") (str "a/b") (by decide)]
    have e : invalidURL (str "/saved/" ++ str "a/b") =
        .errcode StatusNotFound (str "Invalid URL: /saved/a/b") := by decide
    rw [e]
  · rw [Load_saved demoEnv _ (str "old") (str "x") (by decide)]
    rfl

/-- C3: `Save(id, content)` returns the payload-too-large error (status 413)
exactly when the payload is longer than 10240 bytes; whenever it returns that
error the state, the remote store included, is the one before the call, so the
load of `/saved/id` gives the same result after it as before; and a payload of
exactly 10240 bytes is accepted when the store write succeeds. -/
theorem C3_save_size_cap (env : Env) (s : State) (version id : GoString) (content : Bytes) :
    ((∃ msg, (Save s id content).1 = some (.errcode StatusRequestEntityTooLarge msg)) ↔
        10240 < content.length) ∧
    ((∃ msg, (Save s id content).1 = some (.errcode StatusRequestEntityTooLarge msg)) →
        (Save s id content).2 = s ∧
        Load env (Save s id content).2 version (str "/saved/" ++ id) =
          Load env s version (str "/saved/" ++ id)) ∧
    (content.length = 10240 → s.store.writeFault = none → (Save s id content).1 = none) := by
  have hiff : (∃ msg, (Save s id content).1 = some (.errcode StatusRequestEntityTooLarge msg)) ↔
      10240 < content.length := by
    unfold Save
    by_cases hl : content.length > 10240
    · simp [hl]
    · cases hw : s.store.writeFault with
      | none => simp [hl, Store.SET, hw]
      | some m => simp [hl, Store.SET, hw]
  refine ⟨hiff, ?_, ?_⟩
  · intro h
    have hl : content.length > 10240 := hiff.mp h
    have hs : (Save s id content).2 = s := by simp [Save, hl]
    exact ⟨hs, by rw [hs]⟩
  · intro hl hw
    exact (Save_ok_iff s id content).mpr ⟨by omega, hw⟩

/-- C3, witness: a payload of 10241 bytes is refused and leaves the state as it
was, a payload of 10240 bytes is accepted by a store that takes writes. -/
theorem C3_save_size_cap_witness :
    (∃ msg, (Save freshState (str "x") (List.replicate 10241 0)).1 =
      some (.errcode StatusRequestEntityTooLarge msg)) ∧
    (Save freshState (str "x") (List.replicate 10241 0)).2 = freshState ∧
    (Save freshState (str "x") (List.replicate 10240 0)).1 = none :=
  ⟨(C3_save_size_cap demoEnv freshState (str "old") (str "x") (List.replicate 10241 0)).1.mpr
      (by rw [List.length_replicate]; omega),
    ((C3_save_size_cap demoEnv freshState (str "old") (str "x") (List.replicate 10241 0)).2.1
      ((C3_save_size_cap demoEnv freshState (str "old") (str "x")
        (List.replicate 10241 0)).1.mpr (by rw [List.length_replicate]; omega))).1,
    (C3_save_size_cap demoEnv freshState (str "old") (str "x") (List.replicate 10240 0)).2.2
      (List.length_replicate _ _) rfl⟩

theorem find?_first {α : Type} (p : α → Bool) (pre post : List α) (x : α)
    (hpre : ∀ y ∈ pre, p y = false) (hx : p x = true) :
    (pre ++ x :: post).find? p = some x := by
  induction pre with
  | nil => simp [List.find?, hx]
  | cons y ys ih =>
    have hy : p y = false := hpre y (by simp)
    have := ih (fun z hz => hpre z (by simp [hz]))
    simp [List.find?, hy, this]

/-- C5: for a path `/cat/ex` of three segments with `cat` other than `saved`,
and the catalog that `GetDB` gives for the version: if no category of the
catalog is named `cat`, `Load` returns the 404 error "Could not find category:
cat"; if the first category named `cat` holds no example named `ex`, `Load`
returns the 404 error "Could not find example: ex"; and the two errors
differ. -/
theorem C5_missing_category_or_example (env : Env) (s s1 : State)
    (version cat ex : GoString) (db : DB)
    (hcat : slash ∉ cat) (hex : slash ∉ ex) (hsaved : cat ≠ str "saved")
    (hdb : GetDB env s version = .ok (db, s1)) :
    ((∀ c ∈ db.Category, c.Name ≠ cat) →
      Load env s version (str "/" ++ cat ++ str "/" ++ ex) =
        .ok (.error (.errcode StatusNotFound (str "Could not find category: " ++ cat)), s1)) ∧
    (∀ (pre post : List Category) (c : Category), db.Category = pre ++ c :: post →
      (∀ c1 ∈ pre, c1.Name ≠ cat) → c.Name = cat → (∀ e ∈ c.Example, e.Name ≠ ex) →
      Load env s version (str "/" ++ cat ++ str "/" ++ ex) =
        .ok (.error (.errcode StatusNotFound (str "Could not find example: " ++ ex)), s1)) ∧
    Error.errcode StatusNotFound (str "Could not find category: " ++ cat) ≠
      Error.errcode StatusNotFound (str "Could not find example: " ++ ex) := by
  have hl := Load_three env s version _ _ _ _ (Split_plain cat ex hcat hex)
  refine ⟨?_, ?_, ?_⟩
  · intro hnone
    have hf : db.FindCategory cat = none := by
      simp only [DB.FindCategory, List.find?_eq_none]
      intro c hc
      simpa using hnone c hc
    rw [hl]
    simp [resolve, hsaved, hdb, hf]
  · intro pre post c hdec hpre hc hno
    have hf : db.FindCategory cat = some c := by
      simp only [DB.FindCategory, hdec]
      exact find?_first _ pre post c (fun y hy => by simpa using hpre y hy) (by simpa using hc)
    have he : c.FindExample ex = none := by
      simp only [Category.FindExample, List.find?_eq_none]
      intro e hmem
      simpa using hno e hmem
    rw [hl]
    simp [resolve, hsaved, hdb, hf, he]
  · intro h
    have h2 : str "Could not find category: " ++ cat = str "Could not find example: " ++ ex := by
      injection h
    have h3 := congrArg (fun l => l.getD 15 0) h2
    revert h3
    have e1 : str "Could not find category: " =
        [67, 111, 117, 108, 100, 32, 110, 111, 116, 32, 102, 105, 110, 100, 32, 99, 97, 116,
          101, 103, 111, 114, 121, 58, 32] := by decide
    have e2 : str "Could not find example: " =
        [67, 111, 117, 108, 100, 32, 110, 111, 116, 32, 102, 105, 110, 100, 32, 101, 120, 97,
          109, 112, 108, 101, 58, 32] := by decide
    rw [e1, e2]
    simp

/-- C6: a path whose split on `/` is not two segments with the second empty,
not three segments, and not four segments with the second `raw` or `simple`,
gets the 404 error "Invalid URL: path" for every version, whatever the store,
the catalogs and the file system hold, and the state stays as it was. -/
theorem C6_invalid_url (env : Env) (s : State) (version path : GoString)
    (h2 : ¬ ((Split path slash).length = 2 ∧ (Split path slash).getD 1 [] = str ""))
    (h3 : (Split path slash).length ≠ 3)
    (h4 : ¬ ((Split path slash).length = 4 ∧
      ((Split path slash).getD 1 [] = str "raw" ∨ (Split path slash).getD 1 [] = str "simple"))) :
    Load env s version path =
      .ok (.error (.errcode StatusNotFound (str "Invalid URL: " ++ path)), s) := by
  have hp : pathParts path (Split path slash) = .error (invalidURL path) := by
    unfold pathParts
    by_cases hl : (Split path slash).length = 4
    · have hm : (Split path slash).getD 1 [] ≠ str "raw" ∧
          (Split path slash).getD 1 [] ≠ str "simple" :=
        ⟨fun e => h4 ⟨hl, Or.inl e⟩, fun e => h4 ⟨hl, Or.inr e⟩⟩
      rw [if_pos hl, if_pos hm]
    · rw [if_neg hl, if_pos h3]
  unfold Load
  simp only [h2, if_false, hp]
  rfl

/-- C6, witness: the empty path, `/foo`, `/a/b/c/d` and `/a/b/c/d/e` are
rejected. -/
theorem C6_invalid_url_witness :
    Load demoEnv freshState (str "old") (str "") =
      .ok (.error (.errcode StatusNotFound (str "Invalid URL: " ++ str "")), freshState) ∧
    Load demoEnv freshState (str "old") (str "/foo") =
      .ok (.error (.errcode StatusNotFound (str "Invalid URL: " ++ str "/foo")), freshState) ∧
    Load demoEnv freshState (str "mu") (str "/a/b/c/d") =
      .ok (.error (.errcode StatusNotFound (str "Invalid URL: " ++ str "/a/b/c/d")), freshState) ∧
    Load demoEnv freshState (str "mu") (str "/a/b/c/d/e") =
      .ok (.error (.errcode StatusNotFound (str "Invalid URL: " ++ str "/a/b/c/d/e")),
        freshState) :=
  ⟨C6_invalid_url demoEnv freshState (str "old") (str "") (by decide) (by decide) (by decide),
    C6_invalid_url demoEnv freshState (str "old") (str "/foo") (by decide) (by decide)
      (by decide),
    C6_invalid_url demoEnv freshState (str "mu") (str "/a/b/c/d") (by decide) (by decide)
      (by decide),
    C6_invalid_url demoEnv freshState (str "mu") (str "/a/b/c/d/e") (by decide) (by decide)
      (by decide)⟩

/-- C7 (as amended): for every identifier under whose key the store holds no
record, while the store serves reads, the load of `/saved/id` returns a 404
error for every version and leaves the state as it was: "Example not found"
with the path, or "Invalid URL" with the path when the identifier holds a
`/`. -/
theorem C7_missing_saved_is_not_found (env : Env) (s : State) (version id : GoString)
    (hnone : s.store.data (makeKey id) = none) (hread : s.store.readFault = none) :
    Load env s version (str "/saved/" ++ id) =
      .ok (.error (.errcode StatusNotFound
        ((if slash ∈ id then str "Invalid URL: " else str "Example not found: ") ++
          (str "/saved/" ++ id))), s) := by
  by_cases hid : slash ∈ id
  · rw [Load_saved_slash env s version id hid]
    simp [hid, invalidURL]
  · rw [Load_saved env s version id hid]
    simp [Store.GET, hread, hnone, hid]

/-- C7, witness: the identifier `x` in an empty store. -/
theorem C7_missing_saved_is_not_found_witness :
    Load demoEnv freshState (str "old") (str "/saved/" ++ str "x") =
      .ok (.error (.errcode StatusNotFound
        ((if slash ∈ str "x" then str "Invalid URL: " else str "Example not found: ") ++
          (str "/saved/" ++ str "x"))), freshState) :=
  C7_missing_saved_is_not_found demoEnv freshState (str "old") (str "x") rfl rfl

/-- C7, counterexample: a store without records whose reads fail; the load of
`/saved/x` returns the error of the store, which is no 404 error. -/
theorem C7_counterexample :
    unreadableStore.data (makeKey (str "x")) = none ∧
    Load demoEnv { freshState with store := unreadableStore } (str "old")
        (str "/saved/" ++ str "x") =
      .ok (.error (.store (str "connection reset")),
        { freshState with store := unreadableStore }) ∧
    ∀ msg, Error.store (str "connection reset") ≠ Error.errcode StatusNotFound msg := by
  refine ⟨rfl, ?_, fun msg h => by cases h⟩
  rw [Load_saved demoEnv _ (str "old") (str "x") (by decide)]
  rfl

/-! ## The reverse index that `loadDir` builds -/

theorem indexAll_append (m : ExampleMap) (a b : List Example) :
    indexAll m (a ++ b) = indexAll (indexAll m a) b := by
  simp [indexAll, List.foldl_append]

theorem indexAll_of_not_mem (m : ExampleMap) (es : List Example) (k : GoString)
    (h : ∀ e ∈ es, fingerprint e ≠ k) : indexAll m es k = m k := by
  induction es generalizing m with
  | nil => rfl
  | cons e rest ih =>
    have he : k ≠ fingerprint e := fun x => h e (by simp) x.symm
    have hr := ih (m.set (fingerprint e) e) (fun x hx => h x (by simp [hx]))
    simp only [indexAll, List.foldl_cons] at hr ⊢
    rw [hr]
    simp [ExampleMap.set, he]

theorem indexAll_last (m : ExampleMap) (pre post : List Example) (e : Example)
    (h : ∀ x ∈ post, fingerprint x ≠ fingerprint e) :
    indexAll m (pre ++ e :: post) (fingerprint e) = some e := by
  have e1 : pre ++ e :: post = (pre ++ [e]) ++ post := by simp
  rw [e1, indexAll_append, indexAll_of_not_mem _ _ _ h, indexAll_append]
  simp [indexAll, ExampleMap.set]

theorem indexAll_mem (m : ExampleMap) (es : List Example) (e : Example) (he : e ∈ es) :
    ∃ x ∈ es, indexAll m es (fingerprint e) = some x ∧ fingerprint x = fingerprint e := by
  induction es using List.reverseRecOn with
  | nil => simp at he
  | append_singleton l a ih =>
    have hset : indexAll m (l ++ [a]) = (indexAll m l).set (fingerprint a) a := by
      rw [indexAll_append]; rfl
    by_cases ha : fingerprint e = fingerprint a
    · exact ⟨a, by simp, by simp [hset, ExampleMap.set, ha], ha.symm⟩
    · have hel : e ∈ l := by
        rcases List.mem_append.mp he with h | h
        · exact h
        · simp at h; exact absurd (by rw [h]) ha
      obtain ⟨x, hx, hix, hfx⟩ := ih hel
      exact ⟨x, by simp [hx], by simp [hset, ExampleMap.set, ha, hix], hfx⟩

theorem loadExamples_ok (fs : FS) (categoryDir categoryName : GoString)
    (fis : List FileInfo) (examples loaded : List Example) (reverse reverse1 : ExampleMap)
    (h : loadExamples fs categoryDir categoryName fis examples reverse = .ok (loaded, reverse1)) :
    ∃ new, loaded = examples ++ new ∧ reverse1 = indexAll reverse new := by
  induction fis generalizing examples reverse with
  | nil =>
    simp only [loadExamples, Except.ok.injEq, Prod.mk.injEq] at h
    exact ⟨[], by simp [h.1], by simp [indexAll, h.2]⟩
  | cons fi rest ih =>
    unfold loadExamples at h
    simp only at h
    split at h
    · cases h
    · split at h
      · cases h
      · rename_i _ content _ _ cleanName _
        obtain ⟨new, h1, h2⟩ := ih _ _ h
        refine ⟨[{ Name := cleanName, Content := content, AutoRun := true,
                   Title := categoryName ++ str " · " ++ cleanName,
                   URL := Join [str "/", categoryName, cleanName] }] ++ new, ?_, ?_⟩
        · rw [h1, List.append_assoc]
        · rw [h2, indexAll_append]
          rfl

theorem loadCategories_ok (fs : FS) (name : GoString) (fis : List FileInfo) (db db1 : DB)
    (h : loadCategories fs name fis db = .ok db1) :
    ∃ new : List Category, db1.Category = db.Category ++ new ∧
      db1.Reverse = indexAll db.Reverse (new.flatMap (fun c => c.Example)) := by
  induction fis generalizing db with
  | nil =>
    simp only [loadCategories, Except.ok.injEq] at h
    exact ⟨[], by simp [h], by simp [indexAll, h]⟩
  | cons fi rest ih =>
    unfold loadCategories at h
    simp only at h
    split at h
    · exact ih _ h
    · split at h
      · cases h
      · split at h
        · cases h
        · rename_i loaded reverse hload
          obtain ⟨newEx, hl1, hl2⟩ := loadExamples_ok _ _ _ _ _ _ _ _ hload
          obtain ⟨new, h1, h2⟩ := ih _ h
          simp only [List.nil_append] at hl1
          refine ⟨[{ Name := fi.Name, Hidden := hidden fi.Name, Example := loaded }] ++ new,
            ?_, ?_⟩
          · rw [h1, List.append_assoc]
          · rw [h2]
            simp only [List.flatMap_append, List.flatMap_cons, List.flatMap_nil,
              List.append_nil, indexAll_append, hl2, hl1]

theorem loadDir_reverse (fs : FS) (name : GoString) (db : DB) (h : loadDir fs name = .ok db) :
    db.Reverse =
      indexAll (ExampleMap.empty.set (ContentID []) emptyExample) db.examples := by
  unfold loadDir at h
  split at h
  · cases h
  · obtain ⟨new, h1, h2⟩ := loadCategories_ok _ _ _ _ _ h
    simp only [List.nil_append] at h1
    rw [h2, DB.examples, h1]
    rfl

theorem loadDir_demoOld : loadDir demoEnv.fs (str "db/old") = .ok demoOldDB := by
  rfl

theorem loadDir_demoMu : loadDir demoEnv.fs (str "db/mu") = .ok demoMuDB := by
  rfl


theorem GetDB_demoOld :
    GetDB demoEnv freshState (str "old") =
      .ok (demoOldDB, { freshState with old := some demoOldDB }) := by
  rfl

/-- C5, witness: in the small installation, `/nope/intro` names no category
and `/canvas/nope` names no example of the category `canvas`. -/
theorem C5_missing_category_or_example_witness :
    Load demoEnv freshState (str "old") (str "/" ++ str "nope" ++ str "/" ++ str "intro") =
      .ok (.error (.errcode StatusNotFound (str "Could not find category: " ++ str "nope")),
        { freshState with old := some demoOldDB }) ∧
    Load demoEnv freshState (str "old") (str "/" ++ str "canvas" ++ str "/" ++ str "nope") =
      .ok (.error (.errcode StatusNotFound (str "Could not find example: " ++ str "nope")),
        { freshState with old := some demoOldDB }) :=
  ⟨(C5_missing_category_or_example demoEnv freshState _ (str "old") (str "nope") (str "intro")
      demoOldDB (by decide) (by decide) (by decide) GetDB_demoOld).1 (by decide),
    (C5_missing_category_or_example demoEnv freshState _ (str "old") (str "canvas") (str "nope")
      demoOldDB (by decide) (by decide) (by decide) GetDB_demoOld).2.1
      [] [demoTests] demoCanvas rfl (by decide) (by decide) (by decide)⟩

/-- C8 (as amended): for every directory tree on which `loadDir` succeeds,
every Example `e` of every Category of the catalog has an entry in the reverse
index under `ContentID(TrimSpace(e.Content))`: an Example of the catalog with
that same fingerprint, and `e` itself whenever no example loaded after `e` has
that fingerprint. -/
theorem C8_reverse_index_covers_examples (fs : FS) (name : GoString) (db : DB)
    (h : loadDir fs name = .ok db) :
    (∀ c ∈ db.Category, ∀ e ∈ c.Example,
      ∃ x, db.Reverse (ContentID (TrimSpace e.Content)) = some x ∧
        ContentID (TrimSpace x.Content) = ContentID (TrimSpace e.Content) ∧
        ∃ c1 ∈ db.Category, x ∈ c1.Example) ∧
    (∀ (pre post : List Example) (e : Example),
      db.Category.flatMap (fun c => c.Example) = pre ++ e :: post →
      (∀ x ∈ post, ContentID (TrimSpace x.Content) ≠ ContentID (TrimSpace e.Content)) →
      db.Reverse (ContentID (TrimSpace e.Content)) = some e) := by
  have hr := loadDir_reverse fs name db h
  constructor
  · intro c hc e he
    have hmem : e ∈ db.examples := List.mem_flatMap.mpr ⟨c, hc, he⟩
    obtain ⟨x, hx, hix, hfx⟩ := indexAll_mem (ExampleMap.empty.set (ContentID []) emptyExample)
      db.examples e hmem
    obtain ⟨c1, hc1, hxc1⟩ := List.mem_flatMap.mp hx
    exact ⟨x, by rw [hr]; exact hix, hfx, c1, hc1, hxc1⟩
  · intro pre post e hdec hpost
    rw [hr, DB.examples, hdec]
    exact indexAll_last _ pre post e hpost

/-- C8, witness: in the catalog of `db/old` the example `login`, loaded after
`intro` of equal trimmed content, is the entry of its fingerprint. -/
theorem C8_reverse_index_covers_examples_witness :
    demoOldDB.Reverse (ContentID (TrimSpace demoLogin.Content)) = some demoLogin :=
  (C8_reverse_index_covers_examples demoEnv.fs (str "db/old") demoOldDB loadDir_demoOld).2
    [demoIntro] [demoBlank] demoLogin rfl (by decide!)

/-- C8, counterexample: `db/old/canvas` holds `intro.html` and `login.html` of
equal trimmed content; `loadDir` succeeds, and the reverse index holds `login`
under the fingerprint of `intro`. -/
theorem C8_counterexample :
    loadDir demoEnv.fs (str "db/old") = .ok demoOldDB ∧
    demoCanvas ∈ demoOldDB.Category ∧ demoIntro ∈ demoCanvas.Example ∧
    demoOldDB.Reverse (ContentID (TrimSpace demoIntro.Content)) = some demoLogin ∧
    demoLogin ≠ demoIntro := by
  refine ⟨loadDir_demoOld, by decide, by decide, ?_, by decide⟩
  decide!

/-- C9 (as amended): for every directory tree on which `loadDir` succeeds and
in which no loaded example has the fingerprint of the empty content (no
example file is empty or all white space), the reverse index maps
`ContentID` of the empty byte string to the stock empty example (Title
"Welcome", URL "/"). -/
theorem C9_reverse_index_holds_stock (fs : FS) (name : GoString) (db : DB)
    (h : loadDir fs name = .ok db)
    (hne : ∀ c ∈ db.Category, ∀ e ∈ c.Example, ContentID (TrimSpace e.Content) ≠ ContentID []) :
    db.Reverse (ContentID []) = some emptyExample ∧
      emptyExample.Title = str "Welcome" ∧ emptyExample.URL = str "/" := by
  refine ⟨?_, rfl, rfl⟩
  rw [loadDir_reverse fs name db h, indexAll_of_not_mem]
  · simp [ExampleMap.set]
  · intro e he
    obtain ⟨c, hc, hec⟩ := List.mem_flatMap.mp he
    exact hne c hc e hec

/-- C9, witness: the catalog of `db/mu`, whose one example is not blank. -/
theorem C9_reverse_index_holds_stock_witness :
    demoMuDB.Reverse (ContentID []) = some emptyExample ∧
      emptyExample.Title = str "Welcome" ∧ emptyExample.URL = str "/" :=
  C9_reverse_index_holds_stock demoEnv.fs (str "db/mu") demoMuDB loadDir_demoMu (by decide!)

/-- C9, counterexample: `db/old/tests/blank.html` holds a line feed only;
`loadDir` succeeds, and the reverse index holds `blank`, not the stock example,
under the fingerprint of the empty content. -/
theorem C9_counterexample :
    loadDir demoEnv.fs (str "db/old") = .ok demoOldDB ∧
    demoOldDB.Reverse (ContentID []) = some demoBlank ∧
    demoBlank ≠ emptyExample := by
  refine ⟨loadDir_demoOld, ?_, by decide⟩
  decide!

/-- C10 (the code at the failing inputs): a file `a.js`, of four bytes, makes
the slice of `loadDir` go out of range, so that the load panics and with it
the first `Load` of that version; and the file `notes.txt` gets the Name
`note`, not `notes`. -/
theorem C10_clean_name_cuts_five_bytes :
    sliceTo (str "a.js") (((str "a.js").length : Int) - 5) = none ∧
    loadDir demoEnv.fs (str "db/js") = .error .panic ∧
    Load { demoEnv with oldExamplesDir := str "db/js" } freshState (str "old")
        (str "/misc/a") = .error .panic ∧
    sliceTo (str "notes.txt") (((str "notes.txt").length : Int) - 5) = some (str "note") ∧
    loadDir demoEnv.fs (str "db/txt") = .ok demoTxtDB ∧
    demoTxtDB.Category.map (fun c => c.Example.map (fun e => e.Name)) = [[str "note"]] ∧
    str "note" ≠ str "notes" := by
  refine ⟨by decide, rfl, rfl, by decide, rfl, by decide, by decide⟩

/-! ## What a call leaves of the state -/

theorem GetDB_frame (env : Env) (s s1 : State) (version : GoString) (db : DB)
    (h : GetDB env s version = .ok (db, s1)) :
    s1.store = s.store ∧
    (version = str "mu" → s1.old = s.old ∧ s1.mu = some db ∧
      (∀ d, s.mu = some d → s1 = s ∧ d = db) ∧
      (s.mu = none → loadDir env.fs env.newExamplesDir = .ok db)) ∧
    (version ≠ str "mu" → s1.mu = s.mu ∧ s1.old = some db ∧
      (∀ d, s.old = some d → s1 = s ∧ d = db) ∧
      (s.old = none → loadDir env.fs env.oldExamplesDir = .ok db)) := by
  unfold GetDB at h
  by_cases hv : version = str "mu"
  · simp only [hv, if_true] at h
    cases hm : s.mu with
    | some d =>
      simp only [hm, Except.ok.injEq, Prod.mk.injEq] at h
      obtain ⟨h1, h2⟩ := h
      subst h1 h2
      exact ⟨rfl, fun _ => ⟨rfl, hm, fun d2 hd2 => ⟨rfl, by simpa using hd2.symm⟩,
        fun hn => by simp at hn⟩, fun hne => absurd hv hne⟩
    | none =>
      simp only [hm] at h
      cases hl : loadDir env.fs env.newExamplesDir with
      | error f => cases f <;> simp [hl] at h
      | ok d =>
        simp only [hl, Except.ok.injEq, Prod.mk.injEq] at h
        obtain ⟨h1, h2⟩ := h
        subst h1 h2
        exact ⟨rfl, fun _ => ⟨rfl, rfl, fun d2 hd2 => by simp at hd2, fun _ => rfl⟩,
          fun hne => absurd hv hne⟩
  · simp only [hv, if_false] at h
    cases hm : s.old with
    | some d =>
      simp only [hm, Except.ok.injEq, Prod.mk.injEq] at h
      obtain ⟨h1, h2⟩ := h
      subst h1 h2
      exact ⟨rfl, fun he => absurd he hv, fun _ => ⟨rfl, hm,
        fun d2 hd2 => ⟨rfl, by simpa using hd2.symm⟩, fun hn => by simp at hn⟩⟩
    | none =>
      simp only [hm] at h
      cases hl : loadDir env.fs env.oldExamplesDir with
      | error f => cases f <;> simp [hl] at h
      | ok d =>
        simp only [hl, Except.ok.injEq, Prod.mk.injEq] at h
        obtain ⟨h1, h2⟩ := h
        subst h1 h2
        exact ⟨rfl, fun he => absurd he hv,
          fun _ => ⟨rfl, rfl, fun d2 hd2 => by simp at hd2, fun _ => rfl⟩⟩

theorem resolve_frame (env : Env) (s s1 : State) (version path : GoString)
    (parts : List GoString) (r : Except Error Example)
    (h : resolve env s version path parts = .ok (r, s1)) :
    (parts.getD 1 [] = str "saved" ∧ s1 = s) ∨
      (parts.getD 1 [] ≠ str "saved" ∧ ∃ db, GetDB env s version = .ok (db, s1)) := by
  unfold resolve at h
  split at h
  · rename_i hs
    left
    refine ⟨hs, ?_⟩
    split at h <;>
      (simp only [Except.ok.injEq, Prod.mk.injEq] at h; exact h.2.symm)
  · rename_i hs
    right
    refine ⟨hs, ?_⟩
    split at h
    · cases h
    · rename_i db s2 hg
      refine ⟨db, ?_⟩
      rw [hg]
      split at h
      · simp only [Except.ok.injEq, Prod.mk.injEq] at h
        rw [h.2]
      · split at h <;>
          (simp only [Except.ok.injEq, Prod.mk.injEq] at h; rw [h.2])

theorem Load_frame (env : Env) (s s1 : State) (version path : GoString)
    (r : Except Error Example) (h : Load env s version path = .ok (r, s1)) :
    s1 = s ∨ ∃ db, GetDB env s version = .ok (db, s1) := by
  unfold Load at h
  simp only at h
  split at h
  · simp at h; exact Or.inl h.2.symm
  · split at h
    · simp at h; exact Or.inl h.2.symm
    · rcases resolve_frame _ _ _ _ _ _ _ h with ⟨_, h1⟩ | ⟨_, h2⟩
      · exact Or.inl h1
      · exact Or.inr h2

theorem GetDB_cases (env : Env) (s s1 : State) (version : GoString) (db : DB)
    (h : GetDB env s version = .ok (db, s1)) :
    s1 = s ∨
    (version = str "mu" ∧ s.mu = none ∧ loadDir env.fs env.newExamplesDir = .ok db ∧
      s1 = { s with mu := some db }) ∨
    (version ≠ str "mu" ∧ s.old = none ∧ loadDir env.fs env.oldExamplesDir = .ok db ∧
      s1 = { s with old := some db }) := by
  unfold GetDB at h
  split at h
  · rename_i hv
    split at h
    · simp only [Except.ok.injEq, Prod.mk.injEq] at h
      exact Or.inl h.2.symm
    · rename_i hm
      split at h
      · rename_i d hl
        simp only [Except.ok.injEq, Prod.mk.injEq] at h
        exact Or.inr (Or.inl ⟨hv, hm, by rw [hl, h.1], by rw [← h.2, h.1]⟩)
      · cases h
      · cases h
  · rename_i hv
    split at h
    · simp only [Except.ok.injEq, Prod.mk.injEq] at h
      exact Or.inl h.2.symm
    · rename_i hm
      split at h
      · rename_i d hl
        simp only [Except.ok.injEq, Prod.mk.injEq] at h
        exact Or.inr (Or.inr ⟨hv, hm, by rw [hl, h.1], by rw [← h.2, h.1]⟩)
      · cases h
      · cases h

theorem makeKey_injective (a b : GoString) (h : makeKey a = makeKey b) : a = b := by
  unfold makeKey at h
  exact List.append_cancel_left h

/-- C20: `Save` never changes the cached catalogs; the key of an identifier is
`fbrell_examples:` followed by it, and different identifiers have different
keys; a `Save(id, content)` that returns no error changes the remote store at
the key of `id` only, so that for every other identifier the load of
`/saved/id2` returns after the call what it returned before. -/
theorem C20_save_frame (env : Env) (s : State) (version id : GoString) (content : Bytes) :
    ((Save s id content).2.old = s.old ∧ (Save s id content).2.mu = s.mu) ∧
    (makeKey id = str "fbrell_examples:" ++ id ∧ ∀ id2, makeKey id = makeKey id2 → id = id2) ∧
    ((Save s id content).1 = none →
      (∀ key, key ≠ str "fbrell_examples:" ++ id →
        (Save s id content).2.store.data key = s.store.data key) ∧
      (Save s id content).2.store.data (str "fbrell_examples:" ++ id) = some content ∧
      (Save s id content).2.store.readFault = s.store.readFault ∧
      (Save s id content).2.store.writeFault = s.store.writeFault ∧
      ∀ id2, id2 ≠ id →
        (Load env (Save s id content).2 version (str "/saved/" ++ id2)).map Prod.fst =
          (Load env s version (str "/saved/" ++ id2)).map Prod.fst) := by
  refine ⟨?_, ⟨rfl, fun id2 h => makeKey_injective _ _ h⟩, ?_⟩
  · unfold Save
    split
    · exact ⟨rfl, rfl⟩
    · split <;> exact ⟨rfl, rfl⟩
  · intro hsave
    obtain ⟨hl, hw⟩ := (Save_ok_iff s id content).mp hsave
    have hl2 : ¬ content.length > 10240 := by omega
    have hst : (Save s id content).2 =
        { s with store := { s.store with
            data := fun k => if k = makeKey id then some content else s.store.data k } } := by
      simp [Save, hl2, Store.SET, hw]
    have hdata : ∀ key, key ≠ makeKey id →
        (Save s id content).2.store.data key = s.store.data key := by
      intro key hk
      rw [hst]
      simp [hk]
    refine ⟨hdata, ?_, by rw [hst], by rw [hst], ?_⟩
    · rw [hst]
      simp [makeKey]
    · intro id2 hne
      by_cases hid : slash ∈ id2
      · rw [Load_saved_slash env _ version id2 hid, Load_saved_slash env s version id2 hid]
        rfl
      · have hk : makeKey id2 ≠ makeKey id := fun e => hne (makeKey_injective _ _ e)
        have hget : (Save s id content).2.store.GET (makeKey id2) =
            s.store.GET (makeKey id2) := by
          unfold Store.GET
          rw [hdata _ hk, hst]
        rw [Load_saved env _ version id2 hid, Load_saved env s version id2 hid, hget]
        rfl

/-- C20, witness: after `hello` is saved under `x` in a store that holds `hi`
under `y`, the load of `/saved/y` still returns `hi`. -/
theorem C20_save_frame_witness :
    (Load demoEnv (Save (Save freshState (str "y") (str "hi")).2 (str "x") (str "hello")).2
        (str "old") (str "/saved/" ++ str "y")).map Prod.fst =
      (Load demoEnv (Save freshState (str "y") (str "hi")).2 (str "old")
        (str "/saved/" ++ str "y")).map Prod.fst ∧
    (Load demoEnv (Save freshState (str "y") (str "hi")).2 (str "old")
        (str "/saved/" ++ str "y")).map Prod.fst =
      .ok (.ok { Name := [], Content := str "hi", AutoRun := false,
                 Title := str "Stored Example", URL := str "/saved/y" }) :=
  ⟨((C20_save_frame demoEnv (Save freshState (str "y") (str "hi")).2 (str "old") (str "x")
      (str "hello")).2.2 (by decide)).2.2.2.2 (str "y") (by decide), rfl⟩

theorem pathParts_error (path : GoString) (parts : List GoString) (err : Error)
    (h : pathParts path parts = .error err) : err = invalidURL path := by
  unfold pathParts at h
  split at h
  · split at h
    · simp only [Except.error.injEq] at h
      exact h.symm
    · cases h
  · split at h
    · simp only [Except.error.injEq] at h
      exact h.symm
    · cases h

/-- The ways in which `Load` returns an `errcode` error: for a path of no
accepted shape, for a saved example that the store does not hold, and for a
category or an example that the catalog of the version does not hold. -/
theorem Load_errcode_cases (env : Env) (s s1 : State) (version path msg : GoString)
    (code : Nat) (h : Load env s version path = .ok (.error (.errcode code msg), s1)) :
    (msg = str "Invalid URL: " ++ path ∧ s1 = s) ∨
    (msg = str "Example not found: " ++ path ∧ s1 = s ∧
      ∃ parts, pathParts path (Split path slash) = .ok parts ∧
        parts.getD 1 [] = str "saved") ∨
    (∃ parts db, pathParts path (Split path slash) = .ok parts ∧
      parts.getD 1 [] ≠ str "saved" ∧ GetDB env s version = .ok (db, s1) ∧
      (msg = str "Could not find category: " ++ parts.getD 1 [] ∨
        msg = str "Could not find example: " ++ parts.getD 2 [])) := by
  unfold Load at h
  simp only at h
  split at h
  · simp at h
  · split at h
    · rename_i err hp
      simp only [Except.ok.injEq, Prod.mk.injEq, Except.error.injEq] at h
      obtain ⟨h1, h2⟩ := h
      have he := pathParts_error _ _ _ hp
      rw [he, invalidURL] at h1
      simp only [Error.errcode.injEq] at h1
      exact Or.inl ⟨h1.2.symm, h2.symm⟩
    · rename_i parts hp
      unfold resolve at h
      split at h
      · rename_i hs
        right; left
        split at h
        · simp only [Except.ok.injEq, Prod.mk.injEq, Except.error.injEq] at h
          rename_i err hg
          obtain ⟨h1, _⟩ := h
          unfold Store.GET at hg
          split at hg
          · simp only [Except.error.injEq] at hg
            rw [← hg] at h1
            cases h1
          · cases hg
        · simp only [Except.ok.injEq, Prod.mk.injEq, Except.error.injEq,
            Error.errcode.injEq] at h
          exact ⟨h.1.2.symm, h.2.symm, parts, hp, hs⟩
        · simp at h
      · rename_i hs
        right; right
        split at h
        · cases h
        · rename_i db s2 hg
          split at h
          · simp only [Except.ok.injEq, Prod.mk.injEq, Except.error.injEq,
              Error.errcode.injEq] at h
            exact ⟨parts, db, hp, hs, by rw [hg, h.2], Or.inl h.1.2.symm⟩
          · split at h
            · simp only [Except.ok.injEq, Prod.mk.injEq, Except.error.injEq,
                Error.errcode.injEq] at h
              exact ⟨parts, db, hp, hs, by rw [hg, h.2], Or.inr h.1.2.symm⟩
            · simp at h

theorem saved_path_parts (path id : GoString)
    (hp : path = str "/saved/" ++ id ∨ path = str "/raw/saved/" ++ id ∨
      path = str "/simple/saved/" ++ id)
    (parts : List GoString) (h : pathParts path (Split path slash) = .ok parts) :
    parts.getD 1 [] = str "saved" := by
  have e1 : str "/saved/" ++ id = [] ++ slash :: (str "saved" ++ slash :: id) := by
    simp [str_saved]
  have e2 : str "/raw/saved/" ++ id =
      [] ++ slash :: (str "raw" ++ slash :: (str "saved" ++ slash :: id)) := by
    have : str "/raw/saved/" = slash :: (str "raw" ++ slash :: (str "saved" ++ [slash])) := by
      decide
    simp [this]
  have e3 : str "/simple/saved/" ++ id =
      [] ++ slash :: (str "simple" ++ slash :: (str "saved" ++ slash :: id)) := by
    have : str "/simple/saved/" =
        slash :: (str "simple" ++ slash :: (str "saved" ++ [slash])) := by
      decide
    simp [this]
  have hsv : str "saved" ≠ str "raw" ∧ str "saved" ≠ str "simple" := by decide
  have hne := Split_ne_nil id slash
  rcases hp with e | e | e <;> subst e
  · have hs : Split (str "/saved/" ++ id) slash = [] :: str "saved" :: Split id slash := by
      rw [e1, Split_append _ _ _ (by simp), Split_append _ _ _ slash_not_mem_saved]
    rw [hs] at h
    cases hsp : Split id slash with
    | nil => exact absurd hsp hne
    | cons p ps =>
      rw [hsp] at h
      cases ps with
      | nil =>
        simp [pathParts] at h
        rw [← h]; rfl
      | cons q qs =>
        cases qs with
        | nil => simp [pathParts, hsv] at h
        | cons r rs => simp [pathParts] at h
  · have hs : Split (str "/raw/saved/" ++ id) slash =
        [] :: str "raw" :: str "saved" :: Split id slash := by
      rw [e2, Split_append _ _ _ (by simp), Split_append _ _ _ slash_not_mem_raw,
        Split_append _ _ _ slash_not_mem_saved]
    rw [hs] at h
    cases hsp : Split id slash with
    | nil => exact absurd hsp hne
    | cons p ps =>
      rw [hsp] at h
      cases ps with
      | nil =>
        simp [pathParts] at h
        rw [← h]; rfl
      | cons q qs => simp [pathParts] at h
  · have hs : Split (str "/simple/saved/" ++ id) slash =
        [] :: str "simple" :: str "saved" :: Split id slash := by
      rw [e3, Split_append _ _ _ (by simp), Split_append _ _ _ slash_not_mem_simple,
        Split_append _ _ _ slash_not_mem_saved]
    rw [hs] at h
    cases hsp : Split id slash with
    | nil => exact absurd hsp hne
    | cons p ps =>
      rw [hsp] at h
      cases ps with
      | nil =>
        have hsr : str "simple" ≠ str "raw" := by decide
        simp [pathParts, hsr] at h
        rw [← h]; rfl
      | cons q qs => simp [pathParts] at h

theorem head_of_append (a b c d : GoString) (x y : Nat) (ha : a.head? = some x)
    (hc : c.head? = some y) (h : a ++ b = c ++ d) : x = y := by
  cases a with
  | nil => simp at ha
  | cons a0 as =>
    cases c with
    | nil => simp at hc
    | cons c0 cs =>
      simp only [List.head?_cons, Option.some.injEq] at ha hc
      simp only [List.cons_append, List.cons.injEq] at h
      rw [← ha, ← hc]
      exact h.1

/-- C16 (as amended): whenever `Load` returns a not-found (404) error, the
remote store is as before the call and a catalog that was cached before the
call is still cached, the same.  The error is one of four: for an invalid URL
and for a missing saved record (whatever the form of the path, `/saved/id`,
`/raw/saved/id` and `/simple/saved/id` included) the state is exactly as
before; for a missing category or a missing example the catalog of the
requested version is cached after the call, the other one is as before, and
the state is exactly as before when that catalog was cached already, while
otherwise the call has loaded it with `loadDir` and cached it. -/
theorem C16_not_found_keeps_state (env : Env) (s s1 : State) (version path msg : GoString)
    (h : Load env s version path = .ok (.error (.errcode StatusNotFound msg), s1)) :
    s1.store = s.store ∧
    (∀ db, s.old = some db → s1.old = some db) ∧
    (∀ db, s.mu = some db → s1.mu = some db) ∧
    (s1 = s ∨
      (version = str "mu" ∧ s.mu = none ∧
        ∃ db, loadDir env.fs env.newExamplesDir = .ok db ∧ s1 = { s with mu := some db }) ∨
      (version ≠ str "mu" ∧ s.old = none ∧
        ∃ db, loadDir env.fs env.oldExamplesDir = .ok db ∧ s1 = { s with old := some db })) ∧
    (msg = str "Invalid URL: " ++ path ∨ msg = str "Example not found: " ++ path ∨
      (∃ cat, msg = str "Could not find category: " ++ cat) ∨
      (∃ ex, msg = str "Could not find example: " ++ ex)) ∧
    ((msg = str "Invalid URL: " ++ path ∨ msg = str "Example not found: " ++ path) →
      s1 = s) ∧
    (∀ id, (path = str "/saved/" ++ id ∨ path = str "/raw/saved/" ++ id ∨
        path = str "/simple/saved/" ++ id) → s1 = s) ∧
    (((∃ cat, msg = str "Could not find category: " ++ cat) ∨
        (∃ ex, msg = str "Could not find example: " ++ ex)) →
      (version = str "mu" →
        s1.old = s.old ∧ (∃ db, s1.mu = some db) ∧ (s.mu ≠ none → s1 = s) ∧
        (s.mu = none →
          ∃ db, loadDir env.fs env.newExamplesDir = .ok db ∧ s1 = { s with mu := some db })) ∧
      (version ≠ str "mu" →
        s1.mu = s.mu ∧ (∃ db, s1.old = some db) ∧ (s.old ≠ none → s1 = s) ∧
        (s.old = none →
          ∃ db, loadDir env.fs env.oldExamplesDir = .ok db ∧
            s1 = { s with old := some db }))) := by
  have hcases : s1 = s ∨
      (version = str "mu" ∧ s.mu = none ∧
        ∃ db, loadDir env.fs env.newExamplesDir = .ok db ∧ s1 = { s with mu := some db }) ∨
      (version ≠ str "mu" ∧ s.old = none ∧
        ∃ db, loadDir env.fs env.oldExamplesDir = .ok db ∧ s1 = { s with old := some db }) := by
    rcases Load_frame _ _ _ _ _ _ h with h1 | ⟨db, hdb⟩
    · exact Or.inl h1
    · rcases GetDB_cases _ _ _ _ _ hdb with h1 | ⟨hv, hm, hl, hs⟩ | ⟨hv, hm, hl, hs⟩
      · exact Or.inl h1
      · exact Or.inr (Or.inl ⟨hv, hm, db, hl, hs⟩)
      · exact Or.inr (Or.inr ⟨hv, hm, db, hl, hs⟩)
  have hkind := Load_errcode_cases env s s1 version path msg StatusNotFound h
  have hI : (str "Invalid URL: ").head? = some 73 := by decide
  have hE : (str "Example not found: ").head? = some 69 := by decide
  have hC1 : (str "Could not find category: ").head? = some 67 := by decide
  have hC2 : (str "Could not find example: ").head? = some 67 := by decide
  refine ⟨?_, ?_, ?_, hcases, ?_, ?_, ?_, ?_⟩
  · rcases hcases with h1 | ⟨_, _, db, _, hs⟩ | ⟨_, _, db, _, hs⟩ <;> rw [‹s1 = _›]
  · intro db hdb
    rcases hcases with h1 | ⟨_, _, d, _, hs⟩ | ⟨_, hm, d, _, hs⟩
    · rw [h1]; exact hdb
    · rw [hs]; exact hdb
    · rw [hm] at hdb; cases hdb
  · intro db hdb
    rcases hcases with h1 | ⟨_, hm, d, _, hs⟩ | ⟨_, _, d, _, hs⟩
    · rw [h1]; exact hdb
    · rw [hm] at hdb; cases hdb
    · rw [hs]; exact hdb
  · rcases hkind with ⟨hm, _⟩ | ⟨hm, _, _⟩ | ⟨parts, _, _, _, _, hm | hm⟩
    · exact Or.inl hm
    · exact Or.inr (Or.inl hm)
    · exact Or.inr (Or.inr (Or.inl ⟨_, hm⟩))
    · exact Or.inr (Or.inr (Or.inr ⟨_, hm⟩))
  · intro hmsg
    rcases hkind with ⟨_, hs⟩ | ⟨_, hs, _⟩ | ⟨parts, _, _, _, _, hm | hm⟩
    · exact hs
    · exact hs
    · rcases hmsg with e | e
      · exact absurd (head_of_append _ _ _ _ 73 67 hI hC1 (e.symm.trans hm)) (by decide)
      · exact absurd (head_of_append _ _ _ _ 69 67 hE hC1 (e.symm.trans hm)) (by decide)
    · rcases hmsg with e | e
      · exact absurd (head_of_append _ _ _ _ 73 67 hI hC2 (e.symm.trans hm)) (by decide)
      · exact absurd (head_of_append _ _ _ _ 69 67 hE hC2 (e.symm.trans hm)) (by decide)
  · intro id hp
    rcases hkind with ⟨_, hs⟩ | ⟨_, hs, _⟩ | ⟨parts, _, hpp, hns, _, _⟩
    · exact hs
    · exact hs
    · exact absurd (saved_path_parts path id hp parts hpp) hns
  · intro hmsg
    have hdb : ∃ db, GetDB env s version = .ok (db, s1) := by
      rcases hkind with ⟨hm, _⟩ | ⟨hm, _, _⟩ | ⟨_, db, _, _, hg, _⟩
      · rcases hmsg with ⟨c, e⟩ | ⟨c, e⟩
        · exact absurd (head_of_append _ _ _ _ 73 67 hI hC1 (hm.symm.trans e)) (by decide)
        · exact absurd (head_of_append _ _ _ _ 73 67 hI hC2 (hm.symm.trans e)) (by decide)
      · rcases hmsg with ⟨c, e⟩ | ⟨c, e⟩
        · exact absurd (head_of_append _ _ _ _ 69 67 hE hC1 (hm.symm.trans e)) (by decide)
        · exact absurd (head_of_append _ _ _ _ 69 67 hE hC2 (hm.symm.trans e)) (by decide)
      · exact ⟨db, hg⟩
    obtain ⟨db, hg⟩ := hdb
    obtain ⟨_, hmu, hold⟩ := GetDB_frame env s s1 version db hg
    constructor
    · intro hv
      obtain ⟨h1, h2, h3, _⟩ := hmu hv
      refine ⟨h1, ⟨db, h2⟩, ?_, ?_⟩
      · intro hne
        cases hm : s.mu with
        | none => exact absurd hm hne
        | some d => exact (h3 d hm).1
      · intro hm
        rcases GetDB_cases _ _ _ _ _ hg with e | ⟨_, _, hl, hs⟩ | ⟨hv2, _, _, _⟩
        · rw [e, hm] at h2; cases h2
        · exact ⟨db, hl, hs⟩
        · exact absurd hv hv2
    · intro hv
      obtain ⟨h1, h2, h3, _⟩ := hold hv
      refine ⟨h1, ⟨db, h2⟩, ?_, ?_⟩
      · intro hne
        cases hm : s.old with
        | none => exact absurd hm hne
        | some d => exact (h3 d hm).1
      · intro hm
        rcases GetDB_cases _ _ _ _ _ hg with e | ⟨hv2, _, _, _⟩ | ⟨_, _, hl, hs⟩
        · rw [e, hm] at h2; cases h2
        · exact absurd hv2 hv
        · exact ⟨db, hl, hs⟩

/-- C16, witness: in a process that has just started, the load of
`/nope/intro` for the version `old` misses the category and leaves the old
catalog loaded and cached, the store as it was; the load of `/raw/saved/x`
misses the record and leaves the state as it was. -/
theorem C16_not_found_keeps_state_witness :
    (Load demoEnv freshState (str "old") (str "/nope/intro") =
        .ok (.error (.errcode StatusNotFound (str "Could not find category: nope")),
          { freshState with old := some demoOldDB }) ∧
      ({ freshState with old := some demoOldDB } : State).store = freshState.store ∧
      ({ freshState with old := some demoOldDB } : State).mu = freshState.mu ∧
      (∃ db, ({ freshState with old := some demoOldDB } : State).old = some db) ∧
      ∃ db, loadDir demoEnv.fs demoEnv.oldExamplesDir = .ok db ∧
        ({ freshState with old := some demoOldDB } : State) =
          { freshState with old := some db }) ∧
    (Load demoEnv freshState (str "old") (str "/raw/saved/x") =
        .ok (.error (.errcode StatusNotFound (str "Example not found: /raw/saved/x")),
          freshState) ∧
      (str "Example not found: /raw/saved/x" = str "Invalid URL: " ++ str "/raw/saved/x" ∨
        str "Example not found: /raw/saved/x" =
          str "Example not found: " ++ str "/raw/saved/x" ∨
        (∃ cat, str "Example not found: /raw/saved/x" =
          str "Could not find category: " ++ cat) ∨
        (∃ ex, str "Example not found: /raw/saved/x" =
          str "Could not find example: " ++ ex))) :=
  ⟨⟨rfl,
      (C16_not_found_keeps_state demoEnv freshState { freshState with old := some demoOldDB }
        (str "old") (str "/nope/intro") (str "Could not find category: nope") rfl).1,
      (((C16_not_found_keeps_state demoEnv freshState { freshState with old := some demoOldDB }
        (str "old") (str "/nope/intro") (str "Could not find category: nope")
        rfl).2.2.2.2.2.2.2 (Or.inl ⟨str "nope", rfl⟩)).2 (by decide)).1,
      (((C16_not_found_keeps_state demoEnv freshState { freshState with old := some demoOldDB }
        (str "old") (str "/nope/intro") (str "Could not find category: nope")
        rfl).2.2.2.2.2.2.2 (Or.inl ⟨str "nope", rfl⟩)).2 (by decide)).2.1,
      (((C16_not_found_keeps_state demoEnv freshState { freshState with old := some demoOldDB }
        (str "old") (str "/nope/intro") (str "Could not find category: nope")
        rfl).2.2.2.2.2.2.2 (Or.inl ⟨str "nope", rfl⟩)).2 (by decide)).2.2.2 rfl⟩,
    rfl,
    (C16_not_found_keeps_state demoEnv freshState freshState (str "old") (str "/raw/saved/x")
      (str "Example not found: /raw/saved/x") rfl).2.2.2.2.1⟩

/-- C16, counterexample: in a process that has just started, the load of
`/nope/intro` returns the 404 error of the missing category and leaves the old
catalog cached, which it was not before the call. -/
theorem C16_counterexample :
    Load demoEnv freshState (str "old") (str "/nope/intro") =
      .ok (.error (.errcode StatusNotFound (str "Could not find category: nope")),
        { freshState with old := some demoOldDB }) ∧
    freshState.old = none ∧
    ({ freshState with old := some demoOldDB } : State).old = some demoOldDB ∧
    ({ freshState with old := some demoOldDB } : State) ≠ freshState := by
  refine ⟨rfl, rfl, rfl, ?_⟩
  intro h
  have h2 := congrArg (fun st : State => st.old.isSome) h
  revert h2
  decide

/-! ## Sequences of calls -/

theorem loadsOfGetDB_spec (env : Env) (s s1 : State) (version : GoString) (db : DB)
    (h : GetDB env s version = .ok (db, s1)) :
    ((loadsOfGetDB s version).count (str "old") ≤ 1 ∧
      (s.old ≠ none → (loadsOfGetDB s version).count (str "old") = 0 ∧ s1.old = s.old) ∧
      ((loadsOfGetDB s version).count (str "old") = 1 → s1.old ≠ none)) ∧
    ((loadsOfGetDB s version).count (str "mu") ≤ 1 ∧
      (s.mu ≠ none → (loadsOfGetDB s version).count (str "mu") = 0 ∧ s1.mu = s.mu) ∧
      ((loadsOfGetDB s version).count (str "mu") = 1 → s1.mu ≠ none)) := by
  have hne : str "old" ≠ str "mu" := by decide
  obtain ⟨_, hmu, hold⟩ := GetDB_frame env s s1 version db h
  unfold loadsOfGetDB
  by_cases hv : version = str "mu"
  · obtain ⟨h1, h2, h3, _⟩ := hmu hv
    simp only [hv, if_true]
    cases hm : s.mu with
    | some d =>
      have := (h3 d hm).1
      subst this
      simp [hm]
    | none => simp [h1, h2, hne, hne.symm]
  · obtain ⟨h1, h2, h3, _⟩ := hold hv
    simp only [hv, if_false]
    cases hm : s.old with
    | some d =>
      have := (h3 d hm).1
      subst this
      simp [hm]
    | none => simp [h1, h2, hne, hne.symm]

theorem loads_nil_spec (s : State) :
    (([] : List GoString).count (str "old") ≤ 1 ∧
      (s.old ≠ none → ([] : List GoString).count (str "old") = 0 ∧ s.old = s.old) ∧
      (([] : List GoString).count (str "old") = 1 → s.old ≠ none)) ∧
    (([] : List GoString).count (str "mu") ≤ 1 ∧
      (s.mu ≠ none → ([] : List GoString).count (str "mu") = 0 ∧ s.mu = s.mu) ∧
      (([] : List GoString).count (str "mu") = 1 → s.mu ≠ none)) := by
  simp

theorem Call_step_spec (env : Env) (s s1 : State) (c : Call) (h : c.step env s = .ok s1) :
    ((c.loads s).count (str "old") ≤ 1 ∧
      (s.old ≠ none → (c.loads s).count (str "old") = 0 ∧ s1.old = s.old) ∧
      ((c.loads s).count (str "old") = 1 → s1.old ≠ none)) ∧
    ((c.loads s).count (str "mu") ≤ 1 ∧
      (s.mu ≠ none → (c.loads s).count (str "mu") = 0 ∧ s1.mu = s.mu) ∧
      ((c.loads s).count (str "mu") = 1 → s1.mu ≠ none)) := by
  cases c with
  | getDB version =>
    simp only [Call.step] at h
    cases hg : GetDB env s version with
    | error e => simp [hg, Except.map] at h
    | ok p =>
      obtain ⟨db, s2⟩ := p
      simp only [hg, Except.map, Except.ok.injEq] at h
      subst h
      exact loadsOfGetDB_spec env s s2 version db hg
  | load version path =>
    simp only [Call.step] at h
    cases hg : Load env s version path with
    | error e => simp [hg, Except.map] at h
    | ok p =>
      obtain ⟨r, s2⟩ := p
      simp only [hg, Except.map, Except.ok.injEq] at h
      subst h
      simp only [Call.loads]
      by_cases hstock : (Split path slash).length = 2 ∧ (Split path slash).getD 1 [] = str ""
      · have hl : loadsOfLoad s version path = [] := by
          simp only [loadsOfLoad, hstock, and_self, if_true]
        simp only [Load, hstock, and_self, if_true, Except.ok.injEq, Prod.mk.injEq] at hg
        rw [hl, ← hg.2]
        exact loads_nil_spec s
      · cases hp : pathParts path (Split path slash) with
        | error err =>
          have hl : loadsOfLoad s version path = [] := by
            simp only [loadsOfLoad, hstock, if_false, hp]
          simp only [Load, hstock, if_false, hp, Except.ok.injEq, Prod.mk.injEq] at hg
          rw [hl, ← hg.2]
          exact loads_nil_spec s
        | ok parts =>
          simp only [Load, hstock, if_false, hp] at hg
          rcases resolve_frame _ _ _ _ _ _ _ hg with ⟨hs, h1⟩ | ⟨hs, db, hdb⟩
          · have hl : loadsOfLoad s version path = [] := by
              simp only [loadsOfLoad, hstock, if_false, hp, hs, if_true]
            rw [hl, h1]
            exact loads_nil_spec s
          · have hl : loadsOfLoad s version path = loadsOfGetDB s version := by
              simp only [loadsOfLoad, hstock, if_false, hp, hs]
            rw [hl]
            exact loadsOfGetDB_spec env s s2 version db hdb

theorem run_spec (env : Env) (calls : List Call) :
    ∀ (s s1 : State) (loads : List GoString), run env s calls = .ok (loads, s1) →
      (loads.count (str "old") ≤ 1 ∧
        (s.old ≠ none → loads.count (str "old") = 0 ∧ s1.old = s.old)) ∧
      (loads.count (str "mu") ≤ 1 ∧
        (s.mu ≠ none → loads.count (str "mu") = 0 ∧ s1.mu = s.mu)) := by
  induction calls with
  | nil =>
    intro s s1 loads h
    simp only [run, Except.ok.injEq, Prod.mk.injEq] at h
    obtain ⟨h1, h2⟩ := h
    subst h1 h2
    simp
  | cons c rest ih =>
    intro s s1 loads h
    unfold run at h
    split at h
    · cases h
    · rename_i s2 hstep
      split at h
      · cases h
      · rename_i l2 s3 hrun
        simp only [Except.ok.injEq, Prod.mk.injEq] at h
        obtain ⟨h1, h2⟩ := h
        subst h1 h2
        obtain ⟨⟨a1, a2, a3⟩, ⟨b1, b2, b3⟩⟩ := Call_step_spec env s s2 c hstep
        obtain ⟨⟨c1, c2⟩, ⟨d1, d2⟩⟩ := ih s2 s3 l2 hrun
        simp only [List.count_append]
        refine ⟨⟨?_, ?_⟩, ⟨?_, ?_⟩⟩
        · by_cases hz : (c.loads s).count (str "old") = 0
          · omega
          · have h1 : (c.loads s).count (str "old") = 1 := by omega
            have := (c2 (a3 h1)).1
            omega
        · intro hs
          obtain ⟨e1, e2⟩ := a2 hs
          obtain ⟨e3, e4⟩ := c2 (by rw [e2]; exact hs)
          exact ⟨by omega, by rw [e4, e2]⟩
        · by_cases hz : (c.loads s).count (str "mu") = 0
          · omega
          · have h1 : (c.loads s).count (str "mu") = 1 := by omega
            have := (d2 (b3 h1)).1
            omega
        · intro hs
          obtain ⟨e1, e2⟩ := b2 hs
          obtain ⟨e3, e4⟩ := d2 (by rw [e2]; exact hs)
          exact ⟨by omega, by rw [e4, e2]⟩

theorem GetDB_cached_old (env : Env) (s : State) (version : GoString) (db : DB)
    (hv : version ≠ str "mu") (h : s.old = some db) : GetDB env s version = .ok (db, s) := by
  simp [GetDB, hv, h]

theorem GetDB_cached_mu (env : Env) (s : State) (db : DB) (h : s.mu = some db) :
    GetDB env s (str "mu") = .ok (db, s) := by
  simp [GetDB, h]

/-- C11: in every sequence of `GetDB` and `Load` calls that the process
survives (no load fails), `loadDir` runs at most once for the old catalog and
at most once for the new one; a catalog that is cached when the sequence
starts is still cached, the same, when it ends, no `loadDir` has run for it,
and `GetDB` for its version then returns it and leaves the state alone,
whatever the file system holds. -/
theorem C11_sequential_memoization (env : Env) (s s1 : State) (calls : List Call)
    (loads : List GoString) (h : run env s calls = .ok (loads, s1)) :
    (loads.count (str "old") ≤ 1 ∧ loads.count (str "mu") ≤ 1) ∧
    (∀ db, s.old = some db →
      str "old" ∉ loads ∧ s1.old = some db ∧
        ∀ env2 version, version ≠ str "mu" → GetDB env2 s1 version = .ok (db, s1)) ∧
    (∀ db, s.mu = some db →
      str "mu" ∉ loads ∧ s1.mu = some db ∧
        ∀ env2, GetDB env2 s1 (str "mu") = .ok (db, s1)) := by
  obtain ⟨⟨c1, c2⟩, ⟨d1, d2⟩⟩ := run_spec env calls s s1 loads h
  refine ⟨⟨c1, d1⟩, ?_, ?_⟩
  · intro db hdb
    obtain ⟨e1, e2⟩ := c2 (by rw [hdb]; simp)
    have hs1 : s1.old = some db := by rw [e2, hdb]
    exact ⟨List.count_eq_zero.mp e1, hs1,
      fun env2 version hv => GetDB_cached_old env2 s1 version db hv hs1⟩
  · intro db hdb
    obtain ⟨e1, e2⟩ := d2 (by rw [hdb]; simp)
    have hs1 : s1.mu = some db := by rw [e2, hdb]
    exact ⟨List.count_eq_zero.mp e1, hs1, fun env2 => GetDB_cached_mu env2 s1 db hs1⟩

/-- C11, witness: six calls in a process that has just started load each of
the two directories once. -/
theorem C11_sequential_memoization_witness :
    run demoEnv freshState
        [.load (str "old") (str "/canvas/intro"), .getDB (str ""),
          .load (str "mu") (str "/auth/login"), .load (str "old") (str "/nope/x"),
          .getDB (str "mu"), .load (str "mu") (str "/saved/x")] =
      .ok ([str "old", str "mu"],
        { freshState with old := some demoOldDB, mu := some demoMuDB }) ∧
    ([str "old", str "mu"].count (str "old") ≤ 1 ∧
      [str "old", str "mu"].count (str "mu") ≤ 1) :=
  ⟨rfl, (C11_sequential_memoization demoEnv freshState
    { freshState with old := some demoOldDB, mu := some demoMuDB }
    [.load (str "old") (str "/canvas/intro"), .getDB (str ""),
      .load (str "mu") (str "/auth/login"), .load (str "old") (str "/nope/x"),
      .getDB (str "mu"), .load (str "mu") (str "/saved/x")]
    [str "old", str "mu"] rfl).1⟩

/-! ## The catalog that `loadDir` builds -/

theorem sliceTo_some (s r : GoString) (h : sliceTo s ((s.length : Int) - 5) = some r) :
    5 ≤ s.length ∧ r = s.take (s.length - 5) := by
  unfold sliceTo at h
  split at h
  · rename_i hb
    have h5 : 5 ≤ s.length := by omega
    refine ⟨h5, ?_⟩
    have e : ((s.length : Int) - 5).toNat = s.length - 5 := by omega
    simp only [Option.some.injEq] at h
    rw [← h, e]
  · cases h

theorem loadExamples_built (fs : FS) (categoryDir categoryName : GoString)
    (fis : List FileInfo) (examples loaded : List Example) (reverse reverse1 : ExampleMap)
    (h : loadExamples fs categoryDir categoryName fis examples reverse = .ok (loaded, reverse1)) :
    ∃ new, loaded = examples ++ new ∧
      List.Forall₂ (builtFrom fs categoryDir categoryName) fis new := by
  induction fis generalizing examples reverse with
  | nil =>
    simp only [loadExamples, Except.ok.injEq, Prod.mk.injEq] at h
    exact ⟨[], by simp [h.1], List.Forall₂.nil⟩
  | cons fi rest ih =>
    unfold loadExamples at h
    simp only at h
    split at h
    · cases h
    · split at h
      · cases h
      · rename_i _ content hread _ cleanName hslice
        obtain ⟨new, h1, h2⟩ := ih _ _ h
        obtain ⟨h5, hname⟩ := sliceTo_some _ _ hslice
        refine ⟨{ Name := cleanName, Content := content, AutoRun := true,
                  Title := categoryName ++ str " · " ++ cleanName,
                  URL := Join [str "/", categoryName, cleanName] } :: new, ?_, ?_⟩
        · rw [h1, List.append_assoc]
          rfl
        · exact List.Forall₂.cons ⟨h5, hname, hread, rfl, rfl, rfl⟩ h2

theorem loadCategories_built (fs : FS) (name : GoString) (fis : List FileInfo) (db db1 : DB)
    (h : loadCategories fs name fis db = .ok db1) :
    ∃ new : List Category, db1.Category = db.Category ++ new ∧
      List.Forall₂ (categoryFrom fs name) (fis.filter (fun fi => fi.IsDir)) new := by
  induction fis generalizing db with
  | nil =>
    simp only [loadCategories, Except.ok.injEq] at h
    exact ⟨[], by simp [h], by simp⟩
  | cons fi rest ih =>
    unfold loadCategories at h
    simp only at h
    split at h
    · rename_i hdir
      obtain ⟨new, h1, h2⟩ := ih _ h
      have hd : fi.IsDir = false := by simpa using hdir
      exact ⟨new, h1, by simpa [List.filter, hd] using h2⟩
    · rename_i hdir
      have hd : fi.IsDir = true := by simpa using hdir
      split at h
      · cases h
      · rename_i _ files hfiles
        split at h
        · cases h
        · rename_i _ loaded reverse hload
          obtain ⟨newEx, hl1, hl2⟩ := loadExamples_built _ _ _ _ _ _ _ _ hload
          obtain ⟨new, h1, h2⟩ := ih _ h
          simp only [List.nil_append] at hl1
          refine ⟨{ Name := fi.Name, Hidden := hidden fi.Name, Example := loaded } :: new,
            ?_, ?_⟩
          · rw [h1, List.append_assoc]
            rfl
          · simp only [List.filter, hd]
            exact List.Forall₂.cons ⟨rfl, rfl, files, hfiles, by rw [hl1]; exact hl2⟩ h2

theorem loadDir_built (fs : FS) (name : GoString) (db : DB) (h : loadDir fs name = .ok db) :
    ∃ listing, fs.ReadDir name = .ok listing ∧
      List.Forall₂ (categoryFrom fs name) (listing.filter (fun fi => fi.IsDir)) db.Category := by
  unfold loadDir at h
  split at h
  · cases h
  · rename_i _ listing hl
    obtain ⟨new, h1, h2⟩ := loadCategories_built _ _ _ _ _ h
    simp only [List.nil_append] at h1
    exact ⟨listing, hl, by rw [h1]; exact h2⟩

theorem Forall₂_mem_right {α β : Type} (R : α → β → Prop) (l1 : List α) (l2 : List β)
    (h : List.Forall₂ R l1 l2) (b : β) (hb : b ∈ l2) : ∃ a ∈ l1, R a b := by
  induction h with
  | nil => simp at hb
  | cons hr _ ih =>
    rcases List.mem_cons.mp hb with e | m
    · subst e
      exact ⟨_, by simp, hr⟩
    · obtain ⟨a, ha, hab⟩ := ih m
      exact ⟨a, by simp [ha], hab⟩

theorem loadDir_category (fs : FS) (name : GoString) (db : DB) (h : loadDir fs name = .ok db)
    (c : Category) (hc : c ∈ db.Category) :
    ∃ listing fi, fs.ReadDir name = .ok listing ∧ fi ∈ listing ∧ fi.IsDir = true ∧
      categoryFrom fs name fi c := by
  obtain ⟨listing, hl, hf⟩ := loadDir_built fs name db h
  obtain ⟨fi, hfi, hcf⟩ := Forall₂_mem_right _ _ _ hf c hc
  obtain ⟨hmem, hdir⟩ := List.mem_filter.mp hfi
  exact ⟨listing, fi, hl, hmem, by simpa using hdir, hcf⟩

theorem loadDir_example (fs : FS) (name : GoString) (db : DB) (h : loadDir fs name = .ok db)
    (c : Category) (hc : c ∈ db.Category) (e : Example) (he : e ∈ c.Example) :
    ∃ files fi, fs.ReadDir (Join [name, c.Name]) = .ok files ∧ fi ∈ files ∧
      builtFrom fs (Join [name, c.Name]) c.Name fi e := by
  obtain ⟨_, cfi, _, _, _, hn, _, files, hfiles, hf⟩ := loadDir_category fs name db h c hc
  obtain ⟨fi, hfi, hb⟩ := Forall₂_mem_right _ _ _ hf e he
  rw [← hn] at hfiles hb
  exact ⟨files, fi, hfiles, hfi, hb⟩

theorem Forall₂_map_eq {α β γ : Type} (R : α → β → Prop) (f : α → γ) (g : β → γ)
    (hR : ∀ a b, R a b → f a = g b) (l1 : List α) (l2 : List β)
    (h : List.Forall₂ R l1 l2) : l1.map f = l2.map g := by
  induction h with
  | nil => rfl
  | cons hr _ ih => simp [hR _ _ hr, ih]

theorem loadCategories_skips_files (fs : FS) (name : GoString) (fis : List FileInfo) :
    ∀ db, loadCategories fs name fis db =
      loadCategories fs name (fis.filter (fun fi => fi.IsDir)) db := by
  induction fis with
  | nil => intro db; rfl
  | cons fi rest ih =>
    intro db
    cases hd : fi.IsDir with
    | false =>
      rw [List.filter_cons_of_neg (by simp [hd])]
      rw [← ih db]
      simp [loadCategories, hd]
    | true =>
      rw [List.filter_cons_of_pos (by simp [hd])]
      unfold loadCategories
      simp only [hd, Bool.not_true, Bool.false_eq_true, if_false]
      split
      · rfl
      · split
        · rfl
        · exact ih _

theorem loadDir_category_files (fs : FS) (name : GoString) (db : DB) (c : Category)
    (h : loadDir fs name = .ok db) (hc : c ∈ db.Category) :
    c.Hidden = hidden c.Name ∧
    ∃ files, fs.ReadDir (Join [name, c.Name]) = .ok files ∧
      List.Forall₂ (builtFrom fs (Join [name, c.Name]) c.Name) files c.Example := by
  obtain ⟨_, fi, _, _, _, hn, hh, files, hfiles, hf⟩ := loadDir_category fs name db h c hc
  rw [← hn] at hh hfiles hf
  exact ⟨hh, files, hfiles, hf⟩

/-- C12: for every category that `loadDir` builds, Hidden is true exactly when
the name of the category is one of `bugs`, `fbml`, `hidden`, `secret`, `tests`;
and the category, hidden or not, holds one Example for each entry of the
listing of its directory, built as for any other category. -/
theorem C12_hidden_categories (fs : FS) (name : GoString) (db : DB) (c : Category)
    (h : loadDir fs name = .ok db) (hc : c ∈ db.Category) :
    (c.Hidden = true ↔
      c.Name ∈ [str "bugs", str "fbml", str "hidden", str "secret", str "tests"]) ∧
    ∃ files, fs.ReadDir (Join [name, c.Name]) = .ok files ∧
      List.Forall₂ (builtFrom fs (Join [name, c.Name]) c.Name) files c.Example := by
  obtain ⟨hh, files, hfiles, hf⟩ := loadDir_category_files fs name db c h hc
  refine ⟨?_, files, hfiles, hf⟩
  rw [hh]
  simp only [hidden, Bool.or_eq_true, decide_eq_true_eq, List.mem_cons, List.mem_singleton,
    List.not_mem_nil, or_false, or_assoc]

/-- C12, witness: the hidden category `tests` and the visible category
`canvas` of the small installation. -/
theorem C12_hidden_categories_witness :
    ((demoTests.Hidden = true ↔
        demoTests.Name ∈ [str "bugs", str "fbml", str "hidden", str "secret", str "tests"]) ∧
      ∃ files, demoEnv.fs.ReadDir (Join [str "db/old", demoTests.Name]) = .ok files ∧
        List.Forall₂ (builtFrom demoEnv.fs (Join [str "db/old", demoTests.Name]) demoTests.Name)
          files demoTests.Example) ∧
    demoTests.Hidden = true ∧ demoTests.Example = [demoBlank] ∧ demoCanvas.Hidden = false :=
  ⟨C12_hidden_categories demoEnv.fs (str "db/old") demoOldDB demoTests loadDir_demoOld
    (by decide), rfl, rfl, rfl⟩

/-- C15: for every directory tree on which `loadDir` succeeds, the names of
the categories of the catalog are the names of the directory entries of the
root listing, in the order of the listing; the entries that are no directories
are skipped, the load going on as if they were not there; and every category
holds exactly one Example for each entry of the listing of its directory, in
the order of the listing. -/
theorem C15_catalog_follows_listings (fs : FS) (name : GoString) (db : DB)
    (h : loadDir fs name = .ok db) :
    ∃ listing, fs.ReadDir name = .ok listing ∧
      db.Category.map (fun c => c.Name) =
        (listing.filter (fun fi => fi.IsDir)).map (fun fi => fi.Name) ∧
      (∀ d, loadCategories fs name listing d =
        loadCategories fs name (listing.filter (fun fi => fi.IsDir)) d) ∧
      ∀ c ∈ db.Category, ∃ files, fs.ReadDir (Join [name, c.Name]) = .ok files ∧
        c.Example.length = files.length ∧
        c.Example.map (fun e => e.Name) =
          files.map (fun fi => fi.Name.take (fi.Name.length - 5)) ∧
        List.Forall₂ (builtFrom fs (Join [name, c.Name]) c.Name) files c.Example := by
  obtain ⟨listing, hl, hf⟩ := loadDir_built fs name db h
  refine ⟨listing, hl, ?_, loadCategories_skips_files fs name listing, ?_⟩
  · exact (Forall₂_map_eq _ (fun fi => fi.Name) (fun c => c.Name)
      (fun a b hab => hab.1.symm) _ _ hf).symm
  · intro c hc
    obtain ⟨_, files, hfiles, hb⟩ := loadDir_category_files fs name db c h hc
    exact ⟨files, hfiles, hb.length_eq.symm,
      (Forall₂_map_eq _ (fun fi => fi.Name.take (fi.Name.length - 5)) (fun e => e.Name)
        (fun a b hab => hab.2.1.symm) _ _ hb).symm, hb⟩

/-- C15, witness: the catalog of `db/old`, whose root holds the stray file
`README.md` and the directories `canvas` and `tests`. -/
theorem C15_catalog_follows_listings_witness :
    ∃ listing, demoEnv.fs.ReadDir (str "db/old") = .ok listing ∧
      demoOldDB.Category.map (fun c => c.Name) =
        (listing.filter (fun fi => fi.IsDir)).map (fun fi => fi.Name) ∧
      (∀ d, loadCategories demoEnv.fs (str "db/old") listing d =
        loadCategories demoEnv.fs (str "db/old") (listing.filter (fun fi => fi.IsDir)) d) ∧
      ∀ c ∈ demoOldDB.Category,
        ∃ files, demoEnv.fs.ReadDir (Join [str "db/old", c.Name]) = .ok files ∧
          c.Example.length = files.length ∧
          c.Example.map (fun e => e.Name) =
            files.map (fun fi => fi.Name.take (fi.Name.length - 5)) ∧
          List.Forall₂ (builtFrom demoEnv.fs (Join [str "db/old", c.Name]) c.Name) files
            c.Example :=
  C15_catalog_follows_listings demoEnv.fs (str "db/old") demoOldDB loadDir_demoOld

/-! ## The URL of a catalog example -/

theorem Join_root (cat name : GoString) (hc : validName cat) (hn : validName name) :
    Join [str "/", cat, name] = str "/" ++ cat ++ str "/" ++ name := by
  obtain ⟨hc0, hcs, hc1, hc2⟩ := hc
  obtain ⟨hn0, hns, hn1, hn2⟩ := hn
  have hj : joinWith [slash] [str "/", cat, name] =
      [] ++ slash :: ([] ++ slash :: (cat ++ slash :: name)) := by
    simp [joinWith, str_slash]
  have hsplit : Split (joinWith [slash] [str "/", cat, name]) slash = [[], [], cat, name] := by
    rw [hj, Split_append _ _ _ (by simp), Split_append _ _ _ (by simp),
      Split_append _ _ _ hcs, Split_of_not_mem _ _ hns]
  have hhead : (joinWith [slash] [str "/", cat, name]).head? = some slash := by
    rw [hj]; rfl
  have hne : str "/" ≠ [] := by decide
  simp only [Join, hne, if_false, Clean, hsplit, hhead]
  simp [List.filter, hc0, hn0, cleanStep, hc1, hc2, hn1, hn2, joinWith, str_slash]

theorem loadDir_example_fields (fs : FS) (name : GoString) (db : DB) (c : Category)
    (e : Example) (h : loadDir fs name = .ok db) (hc : c ∈ db.Category) (he : e ∈ c.Example) :
    e.Title = c.Name ++ str " · " ++ e.Name ∧ e.AutoRun = true ∧
      e.URL = Join [str "/", c.Name, e.Name] := by
  obtain ⟨_, _, _, _, _, _, _, ha, ht, hu⟩ := loadDir_example fs name db h c hc e he
  exact ⟨ht, ha, hu⟩

/-- C14 (as amended): for every Example that `loadDir` builds from the
category directory named `cat`, with Name `name`: Title is
`cat + " · " + name`, AutoRun is true and URL is `path.Join("/", cat, name)`,
which is `"/" + cat + "/" + name` whenever `cat` and `name` are not empty,
hold no `/` and are neither `.` nor `..`. -/
theorem C14_example_fields (fs : FS) (name : GoString) (db : DB) (c : Category)
    (e : Example) (h : loadDir fs name = .ok db) (hc : c ∈ db.Category) (he : e ∈ c.Example) :
    e.Title = c.Name ++ str " · " ++ e.Name ∧ e.AutoRun = true ∧
    e.URL = Join [str "/", c.Name, e.Name] ∧
    (validName c.Name → validName e.Name → e.URL = str "/" ++ c.Name ++ str "/" ++ e.Name) := by
  obtain ⟨ht, ha, hu⟩ := loadDir_example_fields fs name db c e h hc he
  exact ⟨ht, ha, hu, fun h1 h2 => by rw [hu, Join_root _ _ h1 h2]⟩

/-- C14, witness: the example `intro` of the category `canvas`. -/
theorem C14_example_fields_witness :
    demoIntro.Title = demoCanvas.Name ++ str " · " ++ demoIntro.Name ∧
    demoIntro.AutoRun = true ∧
    demoIntro.URL = str "/" ++ demoCanvas.Name ++ str "/" ++ demoIntro.Name :=
  ⟨(C14_example_fields demoEnv.fs (str "db/old") demoOldDB demoCanvas demoIntro loadDir_demoOld
      (by decide) (by decide)).1,
    (C14_example_fields demoEnv.fs (str "db/old") demoOldDB demoCanvas demoIntro loadDir_demoOld
      (by decide) (by decide)).2.1,
    (C14_example_fields demoEnv.fs (str "db/old") demoOldDB demoCanvas demoIntro loadDir_demoOld
      (by decide) (by decide)).2.2.2
      ⟨by decide, by decide, by decide, by decide⟩ ⟨by decide, by decide, by decide, by decide⟩⟩

/-- C14, counterexample: the category directory `c` holds the file `.html`;
`loadDir` succeeds and builds an Example with the empty Name, whose URL is
`/c` and not `/c/`. -/
theorem C14_counterexample :
    loadDir { ReadDir := oddReadDir, ReadFile := oddReadFile } (str "odd") = .ok oddDB ∧
    oddDB.Category = [{ Name := str "c", Example := [oddExample], Hidden := false }] ∧
    oddExample.Name = str "" ∧ oddExample.URL = str "/c" ∧
    oddExample.URL ≠ str "/" ++ str "c" ++ str "/" ++ oddExample.Name := by
  refine ⟨rfl, rfl, rfl, rfl, by decide⟩

/-! ## Which paths give which example -/

theorem joinWith_cons (sep : GoString) (e : GoString) (es : List GoString) (h : es ≠ []) :
    joinWith sep (e :: es) = e ++ sep ++ joinWith sep es := by
  cases es with
  | nil => exact absurd rfl h
  | cons a as => rfl

theorem Split_join (s : GoString) (sep : Nat) : joinWith [sep] (Split s sep) = s := by
  induction s with
  | nil => rfl
  | cons c cs ih =>
    unfold Split
    by_cases hc : c = sep
    · simp only [hc, if_true]
      rw [joinWith_cons _ _ _ (Split_ne_nil cs sep), ih]
      rfl
    · simp only [hc, if_false]
      cases hsp : Split cs sep with
      | nil => exact absurd hsp (Split_ne_nil cs sep)
      | cons p ps =>
        rw [hsp] at ih
        cases ps with
        | nil =>
          simp only [joinWith] at ih ⊢
          rw [ih]
        | cons q qs =>
          rw [joinWith_cons _ _ _ (by simp)] at ih ⊢
          rw [← ih]
          simp

theorem Split_no_sep (s : GoString) (sep : Nat) : ∀ p ∈ Split s sep, sep ∉ p := by
  induction s with
  | nil => simp [Split]
  | cons c cs ih =>
    unfold Split
    by_cases hc : c = sep
    · simp only [hc, if_true]
      intro p hp
      rcases List.mem_cons.mp hp with e | m
      · simp [e]
      · exact ih p m
    · simp only [hc, if_false]
      cases hsp : Split cs sep with
      | nil => exact absurd hsp (Split_ne_nil cs sep)
      | cons q qs =>
        rw [hsp] at ih
        intro p hp
        rcases List.mem_cons.mp hp with e | m
        · subst e
          have hq := ih q (by simp)
          intro hm
          rcases List.mem_cons.mp hm with e2 | m2
          · exact hc e2.symm
          · exact hq m2
        · exact ih p (by simp [m])

theorem Split_stock_iff (path : GoString) :
    ((Split path slash).length = 2 ∧ (Split path slash).getD 1 [] = str "") ↔
      ∃ seg, slash ∉ seg ∧ path = seg ++ str "/" := by
  constructor
  · intro ⟨hl, h1⟩
    have hj := Split_join path slash
    have hn := Split_no_sep path slash
    cases hsp : Split path slash with
    | nil => simp [hsp] at hl
    | cons a rest =>
      cases rest with
      | nil => simp [hsp] at hl
      | cons b rest2 =>
        cases rest2 with
        | cons c r => simp [hsp] at hl
        | nil =>
          rw [hsp] at hj hn h1
          have hb : b = [] := by simpa [str_empty] using h1
          subst hb
          refine ⟨a, hn a (by simp), ?_⟩
          rw [← hj]
          simp [joinWith, str_slash]
  · intro ⟨seg, hseg, hp⟩
    have e : path = seg ++ slash :: [] := by rw [hp, str_slash]
    rw [e, Split_append _ _ _ hseg]
    simp [Split, str_empty]

theorem Load_ok_cases (env : Env) (s s1 : State) (version path : GoString) (x : Example)
    (h : Load env s version path = .ok (.ok x, s1)) :
    (((Split path slash).length = 2 ∧ (Split path slash).getD 1 [] = str "") ∧
      x = emptyExample ∧ s1 = s) ∨
    (¬ ((Split path slash).length = 2 ∧ (Split path slash).getD 1 [] = str "") ∧
      x.Title = str "Stored Example") ∨
    (¬ ((Split path slash).length = 2 ∧ (Split path slash).getD 1 [] = str "") ∧
      ∃ db c, GetDB env s version = .ok (db, s1) ∧ c ∈ db.Category ∧
        c.Name ≠ str "saved" ∧ x ∈ c.Example) := by
  unfold Load at h
  simp only at h
  split at h
  · rename_i hstock
    simp only [Except.ok.injEq, Prod.mk.injEq] at h
    exact Or.inl ⟨hstock, h.1.symm, h.2.symm⟩
  · rename_i hstock
    split at h
    · simp at h
    · rename_i parts _
      unfold resolve at h
      split at h
      · right; left
        refine ⟨hstock, ?_⟩
        split at h
        · simp at h
        · simp at h
        · simp only [Except.ok.injEq, Prod.mk.injEq] at h
          rw [← h.1]
      · rename_i hsaved
        right; right
        refine ⟨hstock, ?_⟩
        split at h
        · cases h
        · rename_i db s2 hg
          split at h
          · simp at h
          · rename_i c hfc
            split at h
            · simp at h
            · rename_i e hfe
              simp only [Except.ok.injEq, Prod.mk.injEq] at h
              obtain ⟨h1, h2⟩ := h
              subst h1 h2
              have hcm : c ∈ db.Category := List.mem_of_find?_eq_some hfc
              have hcn : c.Name = parts.getD 1 [] := by
                simpa using List.find?_some hfc
              have hem : e ∈ c.Example := List.mem_of_find?_eq_some hfe
              exact ⟨db, c, hg, hcm, by rw [hcn]; exact hsaved, hem⟩

theorem GetDB_loaded (env : Env) (s s1 : State) (version : GoString) (db : DB)
    (hs : s.loaded) (h : GetDB env s version = .ok (db, s1)) : db.loaded := by
  obtain ⟨_, hmu, hold⟩ := GetDB_frame env s s1 version db h
  by_cases hv : version = str "mu"
  · obtain ⟨_, _, h3, h4⟩ := hmu hv
    cases hm : s.mu with
    | none => exact ⟨_, _, h4 hm⟩
    | some d =>
      have := (h3 d hm).2
      subst this
      exact hs.2 d hm
  · obtain ⟨_, _, h3, h4⟩ := hold hv
    cases hm : s.old with
    | none => exact ⟨_, _, h4 hm⟩
    | some d =>
      have := (h3 d hm).2
      subst this
      exact hs.1 d hm

theorem title_of_loaded (db : DB) (hdb : db.loaded) (c : Category) (hc : c ∈ db.Category)
    (e : Example) (he : e ∈ c.Example) : e.Title = c.Name ++ str " · " ++ e.Name := by
  obtain ⟨fs, name, h⟩ := hdb
  exact (loadDir_example_fields fs name db c e h hc he).1

theorem title_has_dot (cat name : GoString) : 194 ∈ cat ++ str " · " ++ name := by
  have e : str " · " = [32, 194, 183, 32] := by decide
  simp [e]

theorem freshState_loaded : freshState.loaded :=
  ⟨fun _ h => (by cases h), fun _ h => (by cases h)⟩

/-- C17 (as amended): `Load` takes the stock-example rule (the path splits on
`/` into exactly two segments, the second empty) exactly when the path is one
segment without `/` followed by a final `/`; among the paths that begin with
`/` that is the path `/` alone.  A path of that form gets the stock example,
and in a process whose cached catalogs were built by `loadDir` no other path
does. -/
theorem C17_stock_rule (env : Env) (s s1 : State) (version path : GoString)
    (hs : s.loaded) :
    (((Split path slash).length = 2 ∧ (Split path slash).getD 1 [] = str "") ↔
      ∃ seg, slash ∉ seg ∧ path = seg ++ str "/") ∧
    (path.head? = some slash →
      (((Split path slash).length = 2 ∧ (Split path slash).getD 1 [] = str "") ↔
        path = str "/")) ∧
    (((Split path slash).length = 2 ∧ (Split path slash).getD 1 [] = str "") →
      Load env s version path = .ok (.ok emptyExample, s)) ∧
    (Load env s version path = .ok (.ok emptyExample, s1) →
      (Split path slash).length = 2 ∧ (Split path slash).getD 1 [] = str "") := by
  refine ⟨Split_stock_iff path, ?_, ?_, ?_⟩
  · intro hh
    rw [Split_stock_iff]
    constructor
    · intro ⟨seg, hseg, hp⟩
      cases seg with
      | nil => simpa using hp
      | cons c cs =>
        rw [hp] at hh
        simp only [List.cons_append, List.head?_cons, Option.some.injEq] at hh
        exact absurd (by simp [hh]) hseg
    · intro hp
      exact ⟨[], by simp, by simpa using hp⟩
  · intro hstock
    simp only [Load, hstock, and_self, if_true]
  · intro h
    rcases Load_ok_cases env s s1 version path emptyExample h with
      ⟨hstock, _, _⟩ | ⟨_, ht⟩ | ⟨_, db, c, hg, hc, _, he⟩
    · exact hstock
    · exact absurd ht (by decide)
    · have hl := GetDB_loaded env s s1 version db hs hg
      have ht := title_of_loaded db hl c hc emptyExample he
      have hm := title_has_dot c.Name emptyExample.Name
      rw [← ht] at hm
      exact absurd hm (by decide)

/-- C17, witness: the path `/` in a process that has just started. -/
theorem C17_stock_rule_witness :
    (((Split (str "/") slash).length = 2 ∧ (Split (str "/") slash).getD 1 [] = str "") ↔
      ∃ seg, slash ∉ seg ∧ str "/" = seg ++ str "/") ∧
    ((str "/").head? = some slash →
      (((Split (str "/") slash).length = 2 ∧ (Split (str "/") slash).getD 1 [] = str "") ↔
        str "/" = str "/")) ∧
    (((Split (str "/") slash).length = 2 ∧ (Split (str "/") slash).getD 1 [] = str "") →
      Load demoEnv freshState (str "old") (str "/") = .ok (.ok emptyExample, freshState)) ∧
    (Load demoEnv freshState (str "old") (str "/") = .ok (.ok emptyExample, freshState) →
      (Split (str "/") slash).length = 2 ∧ (Split (str "/") slash).getD 1 [] = str "") :=
  C17_stock_rule demoEnv freshState freshState (str "old") (str "/") freshState_loaded

/-- C17, counterexample: the path `x/` is not `/`, splits into the segments
`x` and the empty one, and gets the stock example. -/
theorem C17_counterexample :
    str "x/" ≠ str "/" ∧
    Split (str "x/") slash = [str "x", str ""] ∧
    Load demoEnv freshState (str "old") (str "x/") = .ok (.ok emptyExample, freshState) := by
  refine ⟨by decide, by decide, rfl⟩

theorem demoEnv_names (p : GoString) (listing : List FileInfo)
    (h : demoEnv.fs.ReadDir p = .ok listing) : ∀ fi ∈ listing, validName fi.Name := by
  simp only [demoEnv, demoReadDir] at h
  repeat' split at h
  all_goals (cases h <;> decide)

theorem not_mem_take (a : Nat) (l : List Nat) (n : Nat) (h : a ∉ l) : a ∉ l.take n :=
  fun hm => h (List.mem_of_mem_take hm)

/-- C18: take the catalog that `GetDB` gives for a version, built by `loadDir`
from directories whose entries are file names (not empty, without `/`, neither
`.` nor `..`).  For every category `c` that is the first of its name, the name
not being `saved`, and every example `e` of `c` that is the first of its Name
in `c`, the Name being neither empty nor `.` nor `..`, the load of `e.URL`
for that version returns `e`; and no load for that version returns an example
of a category named `saved`. -/
theorem C18_catalog_url_round_trip (env : Env) (s s1 : State) (version : GoString)
    (fs : FS) (name : GoString) (db : DB)
    (hdb : GetDB env s version = .ok (db, s1))
    (hl : loadDir fs name = .ok db)
    (hfs : ∀ p listing, fs.ReadDir p = .ok listing → ∀ fi ∈ listing, validName fi.Name) :
    (∀ (pre post : List Category) (c : Category) (epre epost : List Example) (e : Example),
      db.Category = pre ++ c :: post → (∀ c1 ∈ pre, c1.Name ≠ c.Name) →
      c.Name ≠ str "saved" →
      c.Example = epre ++ e :: epost → (∀ e1 ∈ epre, e1.Name ≠ e.Name) →
      e.Name ≠ str "" → e.Name ≠ str "." → e.Name ≠ str ".." →
      Load env s version e.URL = .ok (.ok e, s1)) ∧
    (∀ (path : GoString) (x : Example) (s2 : State),
      Load env s version path = .ok (.ok x, s2) →
      ∀ c ∈ db.Category, c.Name = str "saved" → x ∉ c.Example) := by
  constructor
  · intro pre post c epre epost e hcat hpre hsaved hex hepre hn0 hn1 hn2
    have hc : c ∈ db.Category := by rw [hcat]; simp
    have he : e ∈ c.Example := by rw [hex]; simp
    obtain ⟨listing, cfi, hlist, hcfi, _, hcn, _⟩ := loadDir_category fs name db hl c hc
    have hcv : validName c.Name := by rw [hcn]; exact hfs _ _ hlist cfi hcfi
    obtain ⟨files, fi, hfiles, hfi, _, hen, _⟩ := loadDir_example fs name db hl c hc e he
    have hfv := hfs _ _ hfiles fi hfi
    have hes : slash ∉ e.Name := by rw [hen]; exact not_mem_take _ _ _ hfv.2.1
    have hev : validName e.Name := ⟨by simpa [str_empty] using hn0, hes, hn1, hn2⟩
    have hurl := (loadDir_example_fields fs name db c e hl hc he).2.2
    rw [Join_root _ _ hcv hev] at hurl
    have hfc : db.FindCategory c.Name = some c := by
      simp only [DB.FindCategory, hcat]
      exact find?_first _ pre post c (fun y hy => by simpa using hpre y hy) (by simp)
    have hfe : c.FindExample e.Name = some e := by
      simp only [Category.FindExample, hex]
      exact find?_first _ epre epost e (fun y hy => by simpa using hepre y hy) (by simp)
    rw [hurl, Load_three env s version _ _ _ _ (Split_plain c.Name e.Name hcv.2.1 hes)]
    simp [resolve, hsaved, hdb, hfc, hfe]
  · intro path x s2 hload c hc hcs hx
    have ht := (loadDir_example_fields fs name db c x hl hc hx).1
    have hm := title_has_dot c.Name x.Name
    rw [← ht] at hm
    rcases Load_ok_cases env s s2 version path x hload with
      ⟨_, hxe, _⟩ | ⟨_, hst⟩ | ⟨_, db2, c2, hg, hc2, hne, hx2⟩
    · rw [hxe] at hm
      exact absurd hm (by decide)
    · rw [hst] at hm
      exact absurd hm (by decide)
    · rw [hdb] at hg
      simp only [Except.ok.injEq, Prod.mk.injEq] at hg
      obtain ⟨hg1, _⟩ := hg
      subst hg1
      have ht2 := (loadDir_example_fields fs name db c2 x hl hc2 hx2).1
      rw [ht, List.append_assoc, List.append_assoc] at ht2
      have := List.append_cancel_right ht2
      exact hne (by rw [← this, hcs])

/-- C18, witness: in the small installation the load of the URL of `intro`
returns `intro`. -/
theorem C18_catalog_url_round_trip_witness :
    Load demoEnv freshState (str "old") demoIntro.URL =
      .ok (.ok demoIntro, { freshState with old := some demoOldDB }) :=
  (C18_catalog_url_round_trip demoEnv freshState { freshState with old := some demoOldDB }
    (str "old") demoEnv.fs (str "db/old") demoOldDB GetDB_demoOld loadDir_demoOld
    demoEnv_names).1 [] [demoTests] demoCanvas [] [demoLogin] demoIntro rfl (by simp)
    (by decide) rfl (by simp) (by decide) (by decide) (by decide)

/-! ## The cached catalogs of a running process come from `loadDir` -/

theorem GetDB_keeps_loaded (env : Env) (s s1 : State) (version : GoString) (db : DB)
    (hs : s.loaded) (h : GetDB env s version = .ok (db, s1)) : s1.loaded := by
  rcases GetDB_cases env s s1 version db h with h1 | ⟨_, _, hl, h1⟩ | ⟨_, _, hl, h1⟩
  · rw [h1]; exact hs
  · rw [h1]
    refine ⟨hs.1, ?_⟩
    intro d hd
    simp only [Option.some.injEq] at hd
    exact ⟨_, _, by rw [← hd]; exact hl⟩
  · rw [h1]
    refine ⟨?_, hs.2⟩
    intro d hd
    simp only [Option.some.injEq] at hd
    exact ⟨_, _, by rw [← hd]; exact hl⟩

theorem run_keeps_loaded (env : Env) (calls : List Call) :
    ∀ (s s1 : State) (loads : List GoString), s.loaded →
      run env s calls = .ok (loads, s1) → s1.loaded := by
  induction calls with
  | nil =>
    intro s s1 loads hs h
    simp only [run, Except.ok.injEq, Prod.mk.injEq] at h
    rw [← h.2]; exact hs
  | cons c rest ih =>
    intro s s1 loads hs h
    unfold run at h
    split at h
    · cases h
    · rename_i s2 hstep
      split at h
      · cases h
      · rename_i l2 s3 hrun
        simp only [Except.ok.injEq, Prod.mk.injEq] at h
        rw [← h.2]
        refine ih s2 s3 l2 ?_ hrun
        cases c with
        | getDB version =>
          simp only [Call.step] at hstep
          cases hg : GetDB env s version with
          | error e => simp [hg, Except.map] at hstep
          | ok p =>
            obtain ⟨db, s4⟩ := p
            simp only [hg, Except.map, Except.ok.injEq] at hstep
            rw [← hstep]
            exact GetDB_keeps_loaded env s s4 version db hs hg
        | load version path =>
          simp only [Call.step] at hstep
          cases hg : Load env s version path with
          | error e => simp [hg, Except.map] at hstep
          | ok p =>
            obtain ⟨r, s4⟩ := p
            simp only [hg, Except.map, Except.ok.injEq] at hstep
            rw [← hstep]
            rcases Load_frame env s s4 version path r hg with h1 | ⟨db, hdb⟩
            · rw [h1]; exact hs
            · exact GetDB_keeps_loaded env s s4 version db hs hdb

/-! ## A call without a run of `loadDir` does not look at the file system -/

theorem loadsOfGetDB_nil (env env2 : Env) (s : State) (version : GoString)
    (h : loadsOfGetDB s version = []) : GetDB env s version = GetDB env2 s version := by
  unfold loadsOfGetDB at h
  unfold GetDB
  by_cases hv : version = str "mu"
  · simp only [hv, if_true] at h ⊢
    cases hm : s.mu with
    | none => simp [hm] at h
    | some d => rfl
  · simp only [hv, if_false] at h ⊢
    cases hm : s.old with
    | none => simp [hm] at h
    | some d => rfl

theorem Call_loads_nil (env env2 : Env) (s : State) (c : Call) (h : c.loads s = []) :
    c.step env s = c.step env2 s := by
  cases c with
  | getDB version =>
    simp only [Call.loads] at h
    simp only [Call.step, loadsOfGetDB_nil env env2 s version h]
  | load version path =>
    simp only [Call.loads, loadsOfLoad] at h
    simp only [Call.step, Load]
    split
    · rfl
    · rename_i hstock
      rw [if_neg hstock] at h
      split
      · rfl
      · rename_i parts hp
        rw [hp] at h
        simp only at h
        unfold resolve
        split
        · rfl
        · rename_i hs
          rw [if_neg hs] at h
          rw [loadsOfGetDB_nil env env2 s version h]

end Examples
